import Mathlib

/-!
Verification development for the notion-workspace-documentator formatter
engine (src/formatters, src/types).  The TypeScript entity model, the three
tree builders (MarkdownFormatter.buildTree, TreeFormatter.buildTree,
NumberedFormatter.buildTree), the shared property formatters and the
FormatterFactory are embedded shallowly.  JavaScript object references are
modelled by indices into a node store; `Map.set`/`Map.get` by an
association list in which the most recent binding wins; in-place `push`
by functional update of the store.  JavaScript string falsiness
(`x || 'default'`) is modelled by a test against the empty string, and
optional fields by `Option`.  Array-copy-then-mutate idioms
(`[...xs].reverse()`, `[...xs].sort(cmp)`) are modelled by helpers that
return both the result and the state of the source array after the
operation, so that absence of mutation of shared entity lists is a
provable statement rather than an artefact of the embedding.
-/

namespace NotionDoc

/-- Parent reference of a page or database: `{ type, id }` in the source. -/
structure ParentRef where
  type : String
  id : Option String
deriving Repr, DecidableEq

/-- Embeds the `PageInfo` interface (fields used by the formatters; the
`icon` and raw `properties` bag are unused by the formatter code and
omitted). -/
structure PageInfo where
  id : String
  title : String
  url : String
  lastEditedTime : String
  createdTime : String
  parent : ParentRef
deriving Repr, DecidableEq

/-- Typed rendering of the `options?: any` blob of `DatabaseProperty`,
following the shapes produced by `NotionService.extractPropertyOptions`:
an array of named options for select/multi_select/status, a
`{database_id, single_property, dual_property}` record for relations
(`dualProperty`/`singleProperty` record JavaScript definedness of the
corresponding keys), an `{expression}` record for formulas, and an opaque
JSON payload for the remaining kinds. -/
inductive PropOptions where
  | optionList (names : List String)
  | relation (databaseId : Option String) (dualProperty : Bool) (singleProperty : Bool)
  | formula (expression : Option String)
  | other (json : String)
deriving Repr, DecidableEq

/-- Embeds the `DatabaseProperty` interface. -/
structure DatabaseProperty where
  id : String
  name : String
  type : String
  description : Option String
  options : Option PropOptions
deriving Repr, DecidableEq

/-- Embeds the `DataSource` interface (fields used by the formatters). -/
structure DataSource where
  id : String
  name : String
  title : String
  description : Option String
  properties : List DatabaseProperty
  pages : Option (List PageInfo)
  parentType : String
  parentDatabaseId : String
  createdTime : String
  lastEditedTime : String
  sourceDatabaseName : Option String
deriving Repr, DecidableEq

/-- Embeds the `DatabaseInfo` interface (fields used by the formatters). -/
structure DatabaseInfo where
  id : String
  title : String
  url : String
  description : Option String
  lastEditedTime : String
  createdTime : String
  properties : List DatabaseProperty
  dataSources : List DataSource
  parent : ParentRef
deriving Repr, DecidableEq

/-- Summary counters of the aggregate. -/
structure Summary where
  totalPages : Nat
  totalDatabases : Nat
  totalProperties : Nat
deriving Repr, DecidableEq

/-- Embeds the `WorkspaceDocumentation` aggregate root. -/
structure WorkspaceDocumentation where
  timestamp : String
  workspaceName : String
  pages : List PageInfo
  databases : List DatabaseInfo
  summary : Summary
  includeSchema : Bool
  includeItems : Bool
deriving Repr, DecidableEq

/-- Node kinds of the `TreeNode` interface. -/
inductive NodeType where
  | page
  | database
  | property
  | propertiesSection
  | viewsSection
  | dataSource
  | itemsSection
  | pagesSection
deriving Repr, DecidableEq

/-- Embeds the `TreeNode` interface.  JavaScript child object references
are modelled as indices into the creation-ordered node store of a
`BuildState`. -/
structure TreeNode where
  id : String
  title : String
  type : NodeType
  children : List Nat
  parentId : Option String
deriving Repr, DecidableEq

/-- Node used for out-of-range store reads; its kind `viewsSection` is a
kind never given to a page or database node. -/
def defaultNode : TreeNode :=
  { id := "", title := "", type := .viewsSection, children := [], parentId := none }

/-- State of a tree-builder run: the creation-ordered node store, the
`allNodes` array and the `nodeMap` (most recent binding first, so that
`List.lookup` realises `Map.get` after `Map.set` overwrites). -/
structure BuildState where
  nodes : List TreeNode
  allNodes : List Nat
  nodeMap : List (String × Nat)
deriving Repr, DecidableEq

/-- Empty state at the start of a builder run. -/
def BuildState.empty : BuildState := ⟨[], [], []⟩

/-- Store read, modelling a dereference of a JavaScript object reference. -/
def getNode (st : BuildState) (i : Nat) : TreeNode :=
  st.nodes.getD i defaultNode

/-- Models `nodeMap.get(k)`. -/
def mapGet (st : BuildState) (k : String) : Option Nat :=
  st.nodeMap.lookup k

/-- Models `nodeMap.set(k, v)`. -/
def mapSet (st : BuildState) (k : String) (v : Nat) : BuildState :=
  { st with nodeMap := (k, v) :: st.nodeMap }

/-- Models allocation of a fresh `TreeNode` object: appends it to the
store and returns its index. -/
def newNode (st : BuildState) (n : TreeNode) : Nat × BuildState :=
  (st.nodes.length, { st with nodes := st.nodes ++ [n] })

/-- Models `parent.children.push(child)` on the node at index `p`. -/
def pushChild (st : BuildState) (p c : Nat) : BuildState :=
  let n := getNode st p
  { st with nodes := st.nodes.set p { n with children := n.children ++ [c] } }

/-- Models `node.parentId = pid` on the node at index `i`. -/
def setParent (st : BuildState) (i : Nat) (pid : Option String) : BuildState :=
  let n := getNode st i
  { st with nodes := st.nodes.set i { n with parentId := pid } }

/-- Models `st.allNodes.push(i)`. -/
def pushAll (st : BuildState) (i : Nat) : BuildState :=
  { st with allNodes := st.allNodes ++ [i] }

/-- Models the JavaScript string default idiom `s || d`. -/
def jsOr (s d : String) : String := if s = "" then d else s

/-- Models JavaScript truthiness of an optional string. -/
def strTruthy : Option String → Bool
  | none => false
  | some s => !(s = "")

/-- Result of a builder run: the final store plus the root index list. -/
structure BuiltTree where
  state : BuildState
  rootNodes : List Nat
deriving Repr, DecidableEq

/-- Membership of a node (index) in the forest presented by a builder
result: roots, and children of nodes already in the forest. -/
inductive InForest (bt : BuiltTree) : Nat → Prop
  | root {i : Nat} : i ∈ bt.rootNodes → InForest bt i
  | child {p c : Nat} : InForest bt p → c ∈ (getNode bt.state p).children → InForest bt c

end NotionDoc

namespace NotionDoc

/-- Models `parts.join(sep)` (structurally recursive so that concrete
outputs evaluate in the kernel). -/
def joinSep (sep : String) : List String → String
  | [] => ""
  | [x] => x
  | x :: y :: xs => x ++ sep ++ joinSep sep (y :: xs)

/-- Models `format.toLowerCase()` character by character. -/
def jsToLower (s : String) : String :=
  String.mk (s.data.map Char.toLower)

/-- Literal prefix of a Notion block-property reference inside a formula
expression (the regex `\x7b\x7bnotion:block_property:[^\x7d]+\x7d\x7d`). -/
def blockRefPat : List Char := "\x7b\x7bnotion:block_property:".toList

/-- Attempts to match the block-property-reference regex at the head of
`cs`; on success returns the remainder after the match. -/
def tryMatchRef (cs : List Char) : Option (List Char) :=
  if cs.take blockRefPat.length = blockRefPat then
    let rest := cs.drop blockRefPat.length
    let body := rest.takeWhile (· ≠ '\x7d')
    let rest2 := rest.drop body.length
    if body ≠ [] ∧ rest2.take 2 = ['\x7d', '\x7d'] then some (rest2.drop 2) else none
  else none

/-- Left-to-right global replacement of block-property references by the
literal `[Property]`, as `expression.replace(/\x7b\x7bnotion:block_property:[^\x7d]+\x7d\x7d/g, '[Property]')`.
The fuel argument bounds recursion by the input length. -/
def replaceRefsAux : Nat → List Char → List Char
  | 0, cs => cs
  | fuel + 1, cs =>
    match cs with
    | [] => []
    | c :: rest =>
      match tryMatchRef (c :: rest) with
      | some after => "[Property]".toList ++ replaceRefsAux fuel after
      | none => c :: replaceRefsAux fuel rest

/-- String-level wrapper for the reference replacement. -/
def replaceRefs (s : String) : String :=
  String.mk (replaceRefsAux s.toList.length s.toList)

/-- Models `expression.replace(/\s+/g, ' ').trim()`: split on whitespace,
drop empty pieces, rejoin with single spaces. -/
def collapseWs (s : String) : String :=
  joinSep " " ((s.split (·.isWhitespace)).filter (· ≠ ""))

/-- Models `databases.find(db => db.id === target)` followed by
`relatedDb ? relatedDb.title : target`. -/
def resolveDbName (databases : List DatabaseInfo) (target : String) : String :=
  match databases.find? (fun db => db.id = target) with
  | some db => db.title
  | none => target

/-- Constraint list of a relation property: `two-way`/`one-way` from the
truthiness of `dual_property`, `limit: 1 page`/`no limit` from the
definedness of `single_property`, joined by a comma (shared verbatim by
all three formatter classes). -/
def relationConstraints (dual single : Bool) : String :=
  (if dual then "two-way" else "one-way") ++ ", "
    ++ (if single then "limit: 1 page" else "no limit")

/-- Embeds `TreeFormatter.formatPropertyTitle`. -/
def treeFormatPropertyTitle (property : DatabaseProperty)
    (databases : List DatabaseInfo) : String :=
  let t0 := property.name ++ " (" ++ property.type ++ ")"
  let t1 :=
    if property.type = "select" ∨ property.type = "multi_select" then
      match property.options with
      | some (.optionList names) =>
        if names.length > 0 then t0 ++ " [" ++ joinSep ", " names ++ "]" else t0
      | _ => t0
    else t0
  let t2 :=
    if property.type = "status" then
      match property.options with
      | some (.optionList names) =>
        if names.length > 0 then t1 ++ " [" ++ joinSep ", " names ++ "]" else t1
      | _ => t1
    else t1
  let t3 :=
    if property.type = "relation" then
      match property.options with
      | some (.relation dbId dual single) =>
        if strTruthy dbId then
          t2 ++ " → " ++ resolveDbName databases (dbId.getD "")
            ++ " (" ++ relationConstraints dual single ++ ")"
        else t2
      | _ => t2
    else t2
  let t4 :=
    if property.type = "formula" then
      match property.options with
      | some (.formula expr) =>
        if strTruthy expr then
          t3 ++ " [" ++ collapseWs (replaceRefs (expr.getD "")) ++ "]"
        else t3
      | _ => t3
    else t3
  t4

/-- Embeds `NumberedFormatter.formatPropertyTitle`.  The source guards the
whole options block by `if (property.options)` and branches on the type;
the select-family branch maps over the options array without an
`Array.isArray` guard, so only the `optionList` shape is meaningful there
(other shapes would be a type error in the source). -/
def numberedFormatPropertyTitle (property : DatabaseProperty)
    (databases : List DatabaseInfo) : String :=
  let t0 := property.name ++ " (" ++ property.type ++ ")"
  match property.options with
  | none => t0
  | some opts =>
    if property.type = "select" ∨ property.type = "multi_select" ∨ property.type = "status" then
      match opts with
      | .optionList names =>
        if names.length > 0 then t0 ++ " [" ++ joinSep ", " names ++ "]" else t0
      | _ => t0
    else if property.type = "relation" then
      match opts with
      | .relation dbId dual single =>
        if strTruthy dbId then
          t0 ++ " → " ++ resolveDbName databases (dbId.getD "")
            ++ " (" ++ relationConstraints dual single ++ ")"
        else t0
      | _ => t0
    else if property.type = "formula" then
      match opts with
      | .formula expr =>
        if strTruthy expr then
          t0 ++ " [" ++ collapseWs (replaceRefs (expr.getD "")) ++ "]"
        else t0
      | _ => t0
    else t0

/-- Deterministic stand-in for `JSON.stringify(property.options)` in the
fallback branch of `MarkdownFormatter.formatPropertyTitle` (the exact
JSON text of non-handled option shapes is opaque to every claim). -/
def stringifyOptions : PropOptions → String
  | .optionList names => "[" ++ joinSep "," names ++ "]"
  | .relation dbId _ _ => "\x7b\"database_id\":\"" ++ dbId.getD "" ++ "\"\x7d"
  | .formula expr => "\x7b\"expression\":\"" ++ expr.getD "" ++ "\"\x7d"
  | .other json => json

/-- Embeds `MarkdownFormatter.formatPropertyTitle`: builds the parts list
`[id, type, optionsPart, description?]` and returns the pipe-delimited
encoding `name|id, type, optionsPart, description`. -/
def markdownFormatPropertyTitle (property : DatabaseProperty)
    (databases : List DatabaseInfo) : String :=
  let optPart : List String :=
    match property.options with
    | none => ["[]"]
    | some opts =>
      if property.type = "select" ∨ property.type = "multi_select" ∨ property.type = "status" then
        match opts with
        | .optionList names =>
          if names.length > 0 then ["[" ++ joinSep ", " names ++ "]"] else ["[]"]
        | _ => ["[]"]
      else if property.type = "relation" then
        match opts with
        | .relation dbId dual single =>
          if strTruthy dbId then
            ["→ " ++ resolveDbName databases (dbId.getD "")
              ++ " (" ++ relationConstraints dual single ++ ")"]
          else ["[]"]
        | _ => ["[]"]
      else if property.type = "formula" then
        match opts with
        | .formula expr =>
          if strTruthy expr then
            ["[" ++ collapseWs (replaceRefs (expr.getD "")) ++ "]"]
          else ["[]"]
        | _ => ["[]"]
      else [stringifyOptions opts]
  let parts := [property.id, property.type] ++ optPart
    ++ (match property.description with
        | some d => if d = "" then [] else [d]
        | none => [])
  property.name ++ "|" ++ joinSep ", " parts

end NotionDoc

namespace NotionDoc

/-- Models `[...xs].reverse()`: the first component is the reversed copy
handed to the caller, the second the state of the source array after the
operation (unchanged, because the source spreads into a fresh array
before reversing). -/
def copyReverse (l : List DatabaseProperty) : List DatabaseProperty × List DatabaseProperty :=
  (l.reverse, l)

/-- Comparator of the title-first property sort in
`TreeFormatter.buildTree`. -/
def titleFirstCmp (a b : DatabaseProperty) : Int :=
  if a.type = "title" ∧ b.type ≠ "title" then -1
  else if a.type ≠ "title" ∧ b.type = "title" then 1
  else 0

/-- Insertion of `x` into `l` after every element `y` with `le y x`
(ties keep the earlier element first). -/
def insertSorted (le : α → α → Bool) (x : α) : List α → List α
  | [] => [x]
  | y :: ys => if le y x then y :: insertSorted le x ys else x :: y :: ys

/-- Models `Array.prototype.sort(cmp)` for a consistent comparator: the
stable sort by `le := cmp ≤ 0`, realised as left-to-right stable
insertion (ECMAScript sorts are stable, and a stable sort by a total
preorder is unique, so the choice of algorithm is immaterial). -/
def stableSortBy (cmp : α → α → Int) (l : List α) : List α :=
  l.foldl (fun acc x => insertSorted (fun a b => cmp a b ≤ 0) x acc) []

/-- Models `[...xs].sort(titleFirstCmp)`: sorted copy plus the state of
the source array after the operation. -/
def copySortTitleFirst (l : List DatabaseProperty) :
    List DatabaseProperty × List DatabaseProperty :=
  (stableSortBy titleFirstCmp l, l)

/-- Configuration differences between `MarkdownFormatter.buildTree` and
`NumberedFormatter.buildTree`, which are otherwise line-for-line
identical: whether properties sections are gated on `includeSchema`, the
title of the legacy-shape properties section, and the property formatter
used for property-node titles. -/
structure MNConfig where
  requireSchema : Bool
  legacyPropsTitle : String
  fmtProp : DatabaseProperty → List DatabaseInfo → String

/-- Configuration embedding `MarkdownFormatter.buildTree`. -/
def markdownConfig : MNConfig :=
  ⟨true, "Properties", markdownFormatPropertyTitle⟩

/-- Configuration embedding `NumberedFormatter.buildTree`. -/
def numberedConfig : MNConfig :=
  ⟨false, "properties:", numberedFormatPropertyTitle⟩

/-- Models `data.databases.some(db => db.dataSources && db.dataSources.length > 0)`. -/
def hasDataSources (doc : WorkspaceDocumentation) : Bool :=
  doc.databases.any (fun db => db.dataSources.length > 0)

/-- Page-node creation loop of the Markdown/Numbered builders: in the
data-source shape, pages whose parent type is `database_id` or
`data_source_id` are skipped. -/
def mnAddPages (doc : WorkspaceDocumentation) (st : BuildState) : BuildState :=
  doc.pages.foldl (fun st page =>
    if hasDataSources doc = true
        ∧ (page.parent.type = "database_id" ∨ page.parent.type = "data_source_id") then st
    else
      let nd : TreeNode :=
        { id := page.id, title := jsOr page.title "Untitled Page" ++ " page",
          type := .page, children := [], parentId := page.parent.id }
      let (idx, st') := newNode st nd
      mapSet (pushAll st' idx) page.id idx) st

/-- Data-source loop body of the Markdown/Numbered builders (current API
shape): data-source node, optional properties section with
reverse-insertion-order property children, optional pages section with
the fetched item pages.  Also returns the data source as observed after
the run (its property array is only read through `copyReverse`). -/
def mnProcessDs (cfg : MNConfig) (doc : WorkspaceDocumentation) (dbIdx : Nat)
    (dbId : String) (st : BuildState) (ds : DataSource) : BuildState × DataSource :=
  let dsNode : TreeNode :=
    { id := ds.id, title := jsOr ds.title ds.name ++ " data source",
      type := .dataSource, children := [], parentId := some dbId }
  let (dsIdx, st) := newNode st dsNode
  let st := mapSet (pushChild st dbIdx dsIdx) ds.id dsIdx
  let propsRun : Bool :=
    (decide ((cfg.requireSchema = true → doc.includeSchema = true) ∧ ds.properties.length > 0))
  let st :=
    if (cfg.requireSchema = true → doc.includeSchema = true) ∧ ds.properties.length > 0 then
      let secId := ds.id ++ "-properties"
      let secNode : TreeNode :=
        { id := secId, title := "Properties", type := .propertiesSection,
          children := [], parentId := some ds.id }
      let (secIdx, st) := newNode st secNode
      let st := mapSet (pushChild st dsIdx secIdx) secId secIdx
      ((copyReverse ds.properties).1).foldl (fun st property =>
        let propNode : TreeNode :=
          { id := ds.id ++ "-" ++ property.id,
            title := cfg.fmtProp property doc.databases, type := .property,
            children := [], parentId := some secId }
        let (pIdx, st) := newNode st propNode
        mapSet (pushChild st secIdx pIdx) (ds.id ++ "-" ++ property.id) pIdx) st
    else st
  let st :=
    match ds.pages with
    | some dsPages =>
      if doc.includeItems = true ∧ dsPages.length > 0 then
        let pagesId := ds.id ++ "-pages"
        let pagesNode : TreeNode :=
          { id := pagesId, title := "Data source pages", type := .pagesSection,
            children := [], parentId := some ds.id }
        let (pagesIdx, st) := newNode st pagesNode
        let st := mapSet (pushChild st dsIdx pagesIdx) pagesId pagesIdx
        dsPages.foldl (fun st dsPage =>
          let pgNode : TreeNode :=
            { id := dsPage.id, title := jsOr dsPage.title "Untitled Page" ++ " page",
              type := .page, children := [], parentId := some pagesId }
          let (pgIdx, st) := newNode st pgNode
          pushAll (mapSet (pushChild st pagesIdx pgIdx) dsPage.id pgIdx) pgIdx) st
      else st
    | none => st
  (st, if propsRun then { ds with properties := (copyReverse ds.properties).2 } else ds)

/-- Database loop body of the Markdown/Numbered builders: database node,
then either the data-source branch or the legacy branch (properties
section, and when `includeItems` an items section into which the pages of
this database are re-parented).  Also returns the database as observed
after the run. -/
def mnProcessDb (cfg : MNConfig) (doc : WorkspaceDocumentation)
    (st : BuildState) (database : DatabaseInfo) : BuildState × DatabaseInfo :=
  let dbNode : TreeNode :=
    { id := database.id, title := jsOr database.title "Untitled Database" ++ " database",
      type := .database, children := [], parentId := database.parent.id }
  let (dbIdx, st) := newNode st dbNode
  let st := mapSet (pushAll st dbIdx) database.id dbIdx
  if database.dataSources.length > 0 then
    let (st, dss) := database.dataSources.foldl
      (fun (acc : BuildState × List DataSource) ds =>
        let (st, ds') := mnProcessDs cfg doc dbIdx database.id acc.1 ds
        (st, acc.2 ++ [ds'])) (st, [])
    (st, { database with dataSources := dss })
  else if (cfg.requireSchema = true → doc.includeSchema = true)
      ∧ database.properties.length > 0 then
    let secId := database.id ++ "-properties"
    let secNode : TreeNode :=
      { id := secId, title := cfg.legacyPropsTitle, type := .propertiesSection,
        children := [], parentId := some database.id }
    let (secIdx, st) := newNode st secNode
    let st := mapSet (pushChild st dbIdx secIdx) secId secIdx
    let st := ((copyReverse database.properties).1).foldl (fun st property =>
      let propNode : TreeNode :=
        { id := property.id, title := cfg.fmtProp property doc.databases,
          type := .property, children := [], parentId := some secId }
      let (pIdx, st) := newNode st propNode
      mapSet (pushChild st secIdx pIdx) property.id pIdx) st
    let st :=
      if doc.includeItems = true then
        let itemsId := database.id ++ "-items"
        let itemsNode : TreeNode :=
          { id := itemsId, title := "Database pages", type := .itemsSection,
            children := [], parentId := some database.id }
        let (itemsIdx, st) := newNode st itemsNode
        let st := mapSet (pushChild st dbIdx itemsIdx) itemsId itemsIdx
        (doc.pages.filter (fun p =>
            p.parent.type = "database_id" ∧ p.parent.id = some database.id)).foldl
          (fun st dbPage =>
            match mapGet st dbPage.id with
            | some eIdx => pushChild (setParent st eIdx (some itemsId)) itemsIdx eIdx
            | none => st) st
      else st
    (st, { database with properties := (copyReverse database.properties).2 })
  else (st, database)

/-- Creation phase of the Markdown/Numbered builders, also collecting the
databases as observed after the run. -/
def mnCreate (cfg : MNConfig) (doc : WorkspaceDocumentation) :
    BuildState × List DatabaseInfo :=
  let st := mnAddPages doc BuildState.empty
  doc.databases.foldl (fun (acc : BuildState × List DatabaseInfo) database =>
    let (st, db') := mnProcessDb cfg doc acc.1 database
    (st, acc.2 ++ [db'])) (st, [])

/-- Databases of the aggregate as observed after a Markdown/Numbered
builder run. -/
def mnObservedDatabases (cfg : MNConfig) (doc : WorkspaceDocumentation) :
    List DatabaseInfo :=
  (mnCreate cfg doc).2

/-- Root predicate of the Markdown/Numbered link loop: falsy `parentId`,
or parent id absent from the node map. -/
def mnIsRoot (st : BuildState) (i : Nat) : Bool :=
  if strTruthy (getNode st i).parentId = false then true
  else (mapGet st ((getNode st i).parentId.getD "")).isNone

/-- One iteration of the parent-child linking loop of the
Markdown/Numbered builders. -/
def mnLinkStep (acc : BuildState × List Nat) (idx : Nat) : BuildState × List Nat :=
  let (st, roots) := acc
  let node := getNode st idx
  if strTruthy node.parentId = false then (st, roots ++ [idx])
  else
    match mapGet st (node.parentId.getD "") with
    | some pIdx =>
      if idx ∈ (getNode st pIdx).children then (st, roots)
      else (pushChild st pIdx idx, roots)
    | none => (st, roots ++ [idx])

/-- Embeds `MarkdownFormatter.buildTree` / `NumberedFormatter.buildTree`
(by configuration): creation phase, linking loop, root reversal. -/
def mnBuild (cfg : MNConfig) (doc : WorkspaceDocumentation) : BuiltTree :=
  let cst := (mnCreate cfg doc).1
  let (st, roots) := cst.allNodes.foldl mnLinkStep (cst, [])
  ⟨st, roots.reverse⟩

/-- Models `o || d` for an optional string. -/
def jsOrOpt (o : Option String) (d : String) : String :=
  match o with
  | some s => jsOr s d
  | none => d

/-- The integer result of `a.localeCompare(b)`, modelled as code-point
comparison (they agree on the ASCII titles handled here). -/
def localeCompare (a b : String) : Int :=
  match compare a b with
  | .lt => -1
  | .eq => 0
  | .gt => 1

/-- Comparator of `TreeFormatter.sortTreeNodes`: sections first
(properties before items), then pages before databases, then title
comparison. -/
def cmpNodes (a b : TreeNode) : Int :=
  if a.type = .propertiesSection ∧ b.type ≠ .propertiesSection then -1
  else if b.type = .propertiesSection ∧ a.type ≠ .propertiesSection then 1
  else if a.type = .itemsSection ∧ b.type ≠ .itemsSection ∧ b.type ≠ .propertiesSection then -1
  else if b.type = .itemsSection ∧ a.type ≠ .itemsSection ∧ a.type ≠ .propertiesSection then 1
  else if a.type ≠ b.type ∧ a.type = .page ∧ b.type = .database then -1
  else if a.type ≠ b.type ∧ a.type = .database ∧ b.type = .page then 1
  else localeCompare a.title b.title

/-- Models `node.children := ch` when a child array is sorted in place. -/
def setChildren (st : BuildState) (i : Nat) (ch : List Nat) : BuildState :=
  let n := getNode st i
  { st with nodes := st.nodes.set i { n with children := ch } }

/-- Embeds `TreeFormatter.sortTreeNodes`: sorts a sibling list by
`cmpNodes`, then recursively sorts each node's children.  The fuel
bounds the recursion depth by the store size. -/
def sortTreeNodesF : Nat → BuildState → List Nat → BuildState × List Nat
  | 0, st, idxs => (st, idxs)
  | fuel + 1, st, idxs =>
    let sorted := stableSortBy (fun i j => cmpNodes (getNode st i) (getNode st j)) idxs
    let st := sorted.foldl (fun st i =>
      let (st2, ch) := sortTreeNodesF fuel st (getNode st i).children
      setChildren st2 i ch) st
    (st, sorted)

end NotionDoc

namespace NotionDoc

/-- Page-node creation loop of `TreeFormatter.buildTree` (no skipping:
every page of the aggregate gets a node). -/
def treeAddPages (doc : WorkspaceDocumentation) (st : BuildState) : BuildState :=
  doc.pages.foldl (fun st page =>
    let nd : TreeNode :=
      { id := page.id, title := jsOr page.title "Untitled Page" ++ " page",
        type := .page, children := [], parentId := page.parent.id }
    let (idx, st') := newNode st nd
    mapSet (pushAll st' idx) page.id idx) st

/-- Data-source loop body of `TreeFormatter.buildTree`: data-source node
(labelled with its source database name), title-first-sorted property
nodes attached directly to the data-source node, and an optional pages
section.  Also returns the data source as observed after the run. -/
def treeProcessDs (doc : WorkspaceDocumentation) (dbIdx : Nat) (dbId : String)
    (st : BuildState) (ds : DataSource) : BuildState × DataSource :=
  let sourceName := jsOrOpt ds.sourceDatabaseName "Unknown Database"
  let dsNode : TreeNode :=
    { id := ds.id, title := jsOr ds.title ds.name ++ " (" ++ sourceName ++ " data source)",
      type := .dataSource, children := [], parentId := some dbId }
  let (dsIdx, st) := newNode st dsNode
  let st := mapSet (pushChild st dbIdx dsIdx) ds.id dsIdx
  let propsRun : Bool := decide (ds.properties.length > 0)
  let st :=
    if ds.properties.length > 0 then
      ((copySortTitleFirst ds.properties).1).foldl (fun st property =>
        let propNode : TreeNode :=
          { id := ds.id ++ "-" ++ property.id,
            title := treeFormatPropertyTitle property doc.databases, type := .property,
            children := [], parentId := some ds.id }
        let (pIdx, st) := newNode st propNode
        mapSet (pushChild st dsIdx pIdx) (ds.id ++ "-" ++ property.id) pIdx) st
    else st
  let st :=
    match ds.pages with
    | some dsPages =>
      if doc.includeItems = true ∧ dsPages.length > 0 then
        let pagesId := ds.id ++ "-pages"
        let pagesNode : TreeNode :=
          { id := pagesId, title := "Data source pages", type := .pagesSection,
            children := [], parentId := some ds.id }
        let (pagesIdx, st) := newNode st pagesNode
        let st := mapSet (pushChild st dsIdx pagesIdx) pagesId pagesIdx
        dsPages.foldl (fun st dsPage =>
          let pgNode : TreeNode :=
            { id := dsPage.id, title := jsOr dsPage.title "Untitled Page" ++ " page",
              type := .page, children := [], parentId := some pagesId }
          let (pgIdx, st) := newNode st pgNode
          pushAll (mapSet (pushChild st pagesIdx pgIdx) dsPage.id pgIdx) pgIdx) st
      else st
    | none => st
  (st, if propsRun then { ds with properties := (copySortTitleFirst ds.properties).2 } else ds)

/-- Database loop body of `TreeFormatter.buildTree`: database node, a
`properties:` section whenever the database has legacy properties
(independently of `includeSchema`), the data-source loop, and an `items:`
section whenever `includeItems` is set.  Also returns the database as
observed after the run. -/
def treeProcessDb (doc : WorkspaceDocumentation) (st : BuildState)
    (database : DatabaseInfo) : BuildState × DatabaseInfo :=
  let dbNode : TreeNode :=
    { id := database.id, title := jsOr database.title "Untitled Database" ++ " database",
      type := .database, children := [], parentId := database.parent.id }
  let (dbIdx, st) := newNode st dbNode
  let st := mapSet (pushAll st dbIdx) database.id dbIdx
  let legacyRun : Bool := decide (database.properties.length > 0)
  let st :=
    if database.properties.length > 0 then
      let secId := database.id ++ "-properties"
      let secNode : TreeNode :=
        { id := secId, title := "properties:", type := .propertiesSection,
          children := [], parentId := some database.id }
      let (secIdx, st) := newNode st secNode
      let st := mapSet (pushChild st dbIdx secIdx) secId secIdx
      ((copySortTitleFirst database.properties).1).foldl (fun st property =>
        let propNode : TreeNode :=
          { id := property.id, title := treeFormatPropertyTitle property doc.databases,
            type := .property, children := [], parentId := some secId }
        let (pIdx, st) := newNode st propNode
        mapSet (pushChild st secIdx pIdx) property.id pIdx) st
    else st
  let (st, dss) :=
    if database.dataSources.length > 0 then
      database.dataSources.foldl
        (fun (acc : BuildState × List DataSource) ds =>
          let (st, ds') := treeProcessDs doc dbIdx database.id acc.1 ds
          (st, acc.2 ++ [ds'])) (st, [])
    else (st, database.dataSources)
  let st :=
    if doc.includeItems = true then
      let itemsId := database.id ++ "-items"
      let itemsNode : TreeNode :=
        { id := itemsId, title := "items:", type := .itemsSection,
          children := [], parentId := some database.id }
      let (itemsIdx, st) := newNode st itemsNode
      mapSet (pushChild st dbIdx itemsIdx) itemsId itemsIdx
    else st
  let database' :=
    if legacyRun then { database with properties := (copySortTitleFirst database.properties).2 }
    else database
  let database' :=
    if database.dataSources.length > 0 then { database' with dataSources := dss } else database'
  (st, database')

/-- Creation phase of `TreeFormatter.buildTree`, also collecting the
databases as observed after the run. -/
def treeCreate (doc : WorkspaceDocumentation) : BuildState × List DatabaseInfo :=
  let st := treeAddPages doc BuildState.empty
  doc.databases.foldl (fun (acc : BuildState × List DatabaseInfo) database =>
    let (st, db') := treeProcessDb doc acc.1 database
    (st, acc.2 ++ [db'])) (st, [])

/-- Databases of the aggregate as observed after a `TreeFormatter`
builder run. -/
def treeObservedDatabases (doc : WorkspaceDocumentation) : List DatabaseInfo :=
  (treeCreate doc).2

/-- Node kinds skipped by the linking loop of `TreeFormatter.buildTree`
(they were attached during creation). -/
def treeLinkSkips (t : NodeType) : Bool :=
  t = .property ∨ t = .propertiesSection ∨ t = .viewsSection
    ∨ t = .dataSource ∨ t = .itemsSection ∨ t = .pagesSection

/-- Root predicate of the `TreeFormatter` link loop: falsy `parentId`,
the literal `workspace` parent, or parent id absent from the node map. -/
def treeIsRoot (st : BuildState) (i : Nat) : Bool :=
  strTruthy (getNode st i).parentId = false
    ∨ (getNode st i).parentId = some "workspace"
    ∨ (mapGet st ((getNode st i).parentId.getD "")).isNone

/-- One iteration of the parent-child linking loop of
`TreeFormatter.buildTree`: skipped kinds, root promotion, re-homing of
database-parented pages into the `items:` section (dropped when that
section is absent), and plain attachment otherwise. -/
def treeLinkStep (acc : BuildState × List Nat) (idx : Nat) : BuildState × List Nat :=
  let (st, roots) := acc
  let node := getNode st idx
  if treeLinkSkips node.type then (st, roots)
  else if treeIsRoot st idx then (st, roots ++ [idx])
  else
    let pid := node.parentId.getD ""
    match mapGet st pid with
    | some pIdx =>
      if (getNode st pIdx).type = .database then
        match mapGet st (pid ++ "-items") with
        | some itemsIdx => (pushChild st itemsIdx idx, roots)
        | none => (st, roots)
      else (pushChild st pIdx idx, roots)
    | none => (st, roots)

/-- Embeds `TreeFormatter.buildTree`: creation phase, linking loop,
recursive sibling sort, root reversal. -/
def treeBuild (doc : WorkspaceDocumentation) : BuiltTree :=
  let cst := (treeCreate doc).1
  let (st, roots) := cst.allNodes.foldl treeLinkStep (cst, [])
  let (st, roots) := sortTreeNodesF (st.nodes.length + 1) st roots
  ⟨st, roots.reverse⟩

end NotionDoc

namespace NotionDoc

/-- Models `lines.join('\n')`. -/
def joinLines : List String → String
  | [] => ""
  | [x] => x
  | x :: y :: xs => x ++ "\n" ++ joinLines (y :: xs)

/-- Substring occurrence: `needle` appears somewhere inside `s`. -/
def appearsIn (needle s : String) : Prop :=
  ∃ p q, s = p ++ needle ++ q

/-- Models `'#'.repeat(level)`. -/
def headingMarks (level : Nat) : String :=
  String.mk (List.replicate level '#')

/-- Embeds `MarkdownFormatter.renderNodeMarkdown` (the recursion is
bounded by fuel; the callers pass more fuel than the store size, which is
enough for every forest the builder produces). -/
def renderNodeMarkdownF : Nat → BuildState → WorkspaceDocumentation → (String → String) →
    Nat → Nat → List String
  | 0, _, _, _, _, _ => []
  | fuel + 1, st, doc, env, idx, level =>
    let node := getNode st idx
    let heading := headingMarks level
    let childLines :=
      node.children.foldl (fun acc c =>
        acc ++ renderNodeMarkdownF fuel st doc env c (level + 1)) []
    if node.type = .page then
      ([heading ++ " " ++ node.title] ++
        (match doc.pages.find? (fun p => p.id = node.id) with
         | some pd =>
           ["- **ID:** `" ++ pd.id ++ "`",
            "- **URL:** " ++ pd.url,
            "- **Created:** " ++ env pd.createdTime,
            "- **Last Edited:** " ++ env pd.lastEditedTime,
            "- **Parent Type:** " ++ pd.parent.type] ++
           (if strTruthy pd.parent.id then
             ["- **Parent ID:** `" ++ pd.parent.id.getD "" ++ "`"] else [])
         | none => []) ++ [""]) ++ childLines
    else if node.type = .database then
      ([heading ++ " " ++ node.title] ++
        (match doc.databases.find? (fun db => db.id = node.id) with
         | some dbData =>
           ["- **ID:** `" ++ dbData.id ++ "`",
            "- **URL:** " ++ dbData.url,
            "- **Created:** " ++ env dbData.createdTime,
            "- **Last Edited:** " ++ env dbData.lastEditedTime,
            "- **Parent Type:** " ++ dbData.parent.type] ++
           (if strTruthy dbData.parent.id then
             ["- **Parent ID:** `" ++ dbData.parent.id.getD "" ++ "`"] else [])
         | none => []) ++ [""]) ++ childLines
    else if node.type = .dataSource then
      ([heading ++ " " ++ node.title] ++
        (match doc.databases.findSome? (fun db =>
            db.dataSources.find? (fun ds => ds.id = node.id)) with
         | some dsData =>
           ["- **ID:** `" ++ dsData.id ++ "`",
            "- **URL:** Not available for data sources",
            "- **Created:** " ++ env dsData.createdTime,
            "- **Last Edited:** " ++ env dsData.lastEditedTime,
            "- **Parent Type:** " ++ dsData.parentType,
            "- **Parent ID:** `" ++ dsData.parentDatabaseId ++ "`"] ++
           (if strTruthy dsData.description then
             ["- **Description:** " ++ dsData.description.getD ""] else [])
         | none => []) ++ [""]) ++ childLines
    else if node.type = .propertiesSection ∨ node.type = .pagesSection
        ∨ node.type = .itemsSection then
      [heading ++ " " ++ node.title, ""] ++ childLines
    else if node.type = .property then
      let parts := node.title.splitOn "|"
      let propertyName := parts.headD ""
      let propertyDetails := if parts.length > 1 then parts.getD 1 "" else ""
      ["- **" ++ propertyName ++ ":** " ++ propertyDetails]
    else
      childLines

/-- Embeds `MarkdownFormatter.format`.  The `env` parameter abstracts
`new Date(x).toLocaleString()`, the only locale-dependent piece. -/
def markdownFormat (env : String → String) (doc : WorkspaceDocumentation) : String :=
  let introLines : List String :=
    ["# Notion Workspace Mapping", "",
     "Generated on: " ++ env doc.timestamp, "",
     "## Summary", "",
     "- **Total Pages:** " ++ toString doc.summary.totalPages,
     "- **Total Databases:** " ++ toString doc.summary.totalDatabases,
     "- **Total Properties:** "
       ++ (if doc.includeSchema then toString doc.summary.totalProperties else "not included"),
     "",
     "## Workspace Structure", ""]
  let tree := mnBuild markdownConfig doc
  let body :=
    if tree.rootNodes.length = 0 then
      ["No accessible content found.",
       "Make sure your pages and databases are shared with the integration."]
    else
      tree.rootNodes.foldl (fun acc r =>
        acc ++ renderNodeMarkdownF (tree.state.nodes.length + 1) tree.state doc env r 1) []
  joinLines (introLines ++ body)

/-- Embeds `TreeFormatter.getTypeIcon`. -/
def getTypeIcon : NodeType → String
  | .page => "📄"
  | .database => "🗄️"
  | .property => "🔧"
  | .propertiesSection => "📋"
  | .itemsSection => "📁"
  | .pagesSection => "📁"
  | .dataSource => "🔗"
  | .viewsSection => "📁"

/-- Embeds `TreeFormatter.renderNode` (fuel-bounded recursion). -/
def renderNodeF : Nat → BuildState → Nat → String → Bool → List String
  | 0, _, _, _, _ => []
  | fuel + 1, st, idx, pre, isLast =>
    let node := getNode st idx
    let connector := if isLast then "└── " else "├── "
    let line := pre ++ connector ++ getTypeIcon node.type ++ " " ++ node.title
    let childPre := pre ++ (if isLast then "    " else "│   ")
    let n := node.children.length
    line :: (node.children.enum.foldl (fun acc ic =>
      acc ++ renderNodeF fuel st ic.2 childPre (decide (ic.1 = n - 1))) [])

/-- Embeds `TreeFormatter.format` / `TreeFormatter.renderTree`. -/
def treeFormat (env : String → String) (doc : WorkspaceDocumentation) : String :=
  let tree := treeBuild doc
  let introLines : List String :=
    ["# Notion Workspace Tree Structure", "",
     "Generated on: " ++ env doc.timestamp, "",
     "## Summary",
     "Pages: " ++ toString doc.summary.totalPages,
     "Databases: " ++ toString doc.summary.totalDatabases,
     "Properties: "
       ++ (if doc.includeSchema then toString doc.summary.totalProperties else "not included"),
     "", "## Workspace Structure", ""]
  let body :=
    if tree.rootNodes.length = 0 then
      ["No accessible content found.",
       "Make sure your pages and databases are shared with the integration."]
    else
      tree.rootNodes.foldl (fun acc r =>
        acc ++ renderNodeF (tree.state.nodes.length + 1) tree.state r "" true) []
  joinLines (introLines ++ body)

/-- Embeds `NumberedFormatter.formatNodeNumbered` (fuel-bounded). -/
def formatNodeNumberedF : Nat → BuildState → Nat → List Nat → List String
  | 0, _, _, _ => []
  | fuel + 1, st, idx, numberPath =>
    let node := getNode st idx
    let number := joinSep "." (numberPath.map toString)
    (number ++ " " ++ node.title) ::
      (node.children.foldl (fun (acc : List String × Nat) c =>
        (acc.1 ++ formatNodeNumberedF fuel st c (numberPath ++ [acc.2]), acc.2 + 1))
        ([], 1)).1

/-- Embeds `NumberedFormatter.format` (the plain-text body; the PDF and
DOCX writers restyle this same text). -/
def numberedFormat (doc : WorkspaceDocumentation) : String :=
  let tree := mnBuild numberedConfig doc
  joinLines ((tree.rootNodes.foldl (fun (acc : List String × Nat) r =>
    (acc.1 ++ formatNodeNumberedF (tree.state.nodes.length + 1) tree.state r [acc.2],
      acc.2 + 1)) ([], 1)).1)

/-- Formatter kinds returned by `FormatterFactory.create`. -/
inductive FormatterKind where
  | json
  | markdown
  | csv
  | tree
  | numberedTxt
deriving Repr, DecidableEq

/-- Embeds `FormatterFactory.create`: a switch on the lower-cased format
identifier, throwing `Unsupported format` on the default branch. -/
def FormatterFactory.create (format : String) : Except String FormatterKind :=
  let f := jsToLower format
  if f = "json" then .ok .json
  else if f = "markdown" ∨ f = "md" then .ok .markdown
  else if f = "csv" then .ok .csv
  else if f = "tree" then .ok .tree
  else if f = "numbered" then .ok .numberedTxt
  else .error ("Unsupported format: " ++ format)

end NotionDoc

namespace NotionDoc

theorem getNode_of_length_le {st : BuildState} {i : Nat}
    (h : st.nodes.length ≤ i) : getNode st i = defaultNode := by
  simp [getNode, List.getD_eq_getElem?_getD, List.getElem?_eq_none h]

theorem nodes_mapSet (st : BuildState) (k : String) (v : Nat) :
    (mapSet st k v).nodes = st.nodes := rfl

theorem getNode_mapSet (st : BuildState) (k : String) (v : Nat) (i : Nat) :
    getNode (mapSet st k v) i = getNode st i := rfl

theorem getNode_pushAll (st : BuildState) (j i : Nat) :
    getNode (pushAll st j) i = getNode st i := rfl

theorem length_pushAll (st : BuildState) (j : Nat) :
    (pushAll st j).nodes.length = st.nodes.length := rfl

theorem allNodes_mapSet (st : BuildState) (k : String) (v : Nat) :
    (mapSet st k v).allNodes = st.allNodes := rfl

theorem allNodes_pushAll (st : BuildState) (j : Nat) :
    (pushAll st j).allNodes = st.allNodes ++ [j] := rfl

theorem length_newNode (st : BuildState) (n : TreeNode) :
    ((newNode st n).2).nodes.length = st.nodes.length + 1 := by
  simp [newNode]

theorem getNode_newNode_lt {st : BuildState} {i : Nat} (n : TreeNode)
    (h : i < st.nodes.length) : getNode ((newNode st n).2) i = getNode st i := by
  simp [newNode, getNode, List.getD_eq_getElem?_getD, List.getElem?_append_left h]

theorem getNode_newNode_self (st : BuildState) (n : TreeNode) :
    getNode ((newNode st n).2) st.nodes.length = n := by
  simp [newNode, getNode, List.getD_eq_getElem?_getD]

theorem getNode_newNode_gt {st : BuildState} {i : Nat} (n : TreeNode)
    (h : st.nodes.length + 1 ≤ i) : getNode ((newNode st n).2) i = defaultNode := by
  apply getNode_of_length_le
  simpa [length_newNode] using h

theorem length_pushChild (st : BuildState) (p c : Nat) :
    (pushChild st p c).nodes.length = st.nodes.length := by
  simp [pushChild]

theorem getNode_pushChild_ne {st : BuildState} {p i : Nat} (c : Nat)
    (h : i ≠ p) : getNode (pushChild st p c) i = getNode st i := by
  simp [pushChild, getNode, List.getD_eq_getElem?_getD, List.getElem?_set_ne (Ne.symm h)]

theorem getNode_pushChild_self {st : BuildState} {p : Nat} (c : Nat)
    (h : p < st.nodes.length) :
    getNode (pushChild st p c) p =
      { getNode st p with children := (getNode st p).children ++ [c] } := by
  simp [pushChild, getNode, List.getD_eq_getElem?_getD, List.getElem?_set_self h]

theorem length_setParent (st : BuildState) (i : Nat) (pid : Option String) :
    (setParent st i pid).nodes.length = st.nodes.length := by
  simp [setParent]

theorem getNode_setParent_ne {st : BuildState} {j i : Nat} (pid : Option String)
    (h : i ≠ j) : getNode (setParent st j pid) i = getNode st i := by
  simp [setParent, getNode, List.getD_eq_getElem?_getD, List.getElem?_set_ne (Ne.symm h)]

theorem getNode_setParent_self {st : BuildState} {j : Nat} (pid : Option String)
    (h : j < st.nodes.length) :
    getNode (setParent st j pid) j = { getNode st j with parentId := pid } := by
  simp [setParent, getNode, List.getD_eq_getElem?_getD, List.getElem?_set_self h]

end NotionDoc

namespace NotionDoc

theorem pushChild_of_le {st : BuildState} {p : Nat} (c : Nat)
    (h : st.nodes.length ≤ p) : pushChild st p c = st := by
  simp [pushChild, List.set_eq_of_length_le h]

theorem setParent_of_le {st : BuildState} {j : Nat} (pid : Option String)
    (h : st.nodes.length ≤ j) : setParent st j pid = st := by
  simp [setParent, List.set_eq_of_length_le h]

theorem getNode_pushChild_id (st : BuildState) (p c i : Nat) :
    (getNode (pushChild st p c) i).id = (getNode st i).id := by
  by_cases hip : i = p
  · subst hip
    by_cases hp : i < st.nodes.length
    · rw [getNode_pushChild_self c hp]
    · rw [pushChild_of_le c (Nat.le_of_not_lt hp)]
  · rw [getNode_pushChild_ne c hip]

theorem getNode_pushChild_type (st : BuildState) (p c i : Nat) :
    (getNode (pushChild st p c) i).type = (getNode st i).type := by
  by_cases hip : i = p
  · subst hip
    by_cases hp : i < st.nodes.length
    · rw [getNode_pushChild_self c hp]
    · rw [pushChild_of_le c (Nat.le_of_not_lt hp)]
  · rw [getNode_pushChild_ne c hip]

theorem getNode_pushChild_title (st : BuildState) (p c i : Nat) :
    (getNode (pushChild st p c) i).title = (getNode st i).title := by
  by_cases hip : i = p
  · subst hip
    by_cases hp : i < st.nodes.length
    · rw [getNode_pushChild_self c hp]
    · rw [pushChild_of_le c (Nat.le_of_not_lt hp)]
  · rw [getNode_pushChild_ne c hip]

theorem getNode_pushChild_parentId (st : BuildState) (p c i : Nat) :
    (getNode (pushChild st p c) i).parentId = (getNode st i).parentId := by
  by_cases hip : i = p
  · subst hip
    by_cases hp : i < st.nodes.length
    · rw [getNode_pushChild_self c hp]
    · rw [pushChild_of_le c (Nat.le_of_not_lt hp)]
  · rw [getNode_pushChild_ne c hip]

theorem getNode_setParent_id (st : BuildState) (j : Nat) (pid : Option String) (i : Nat) :
    (getNode (setParent st j pid) i).id = (getNode st i).id := by
  by_cases hij : i = j
  · subst hij
    by_cases hj : i < st.nodes.length
    · rw [getNode_setParent_self pid hj]
    · rw [setParent_of_le pid (Nat.le_of_not_lt hj)]
  · rw [getNode_setParent_ne pid hij]

theorem getNode_setParent_type (st : BuildState) (j : Nat) (pid : Option String) (i : Nat) :
    (getNode (setParent st j pid) i).type = (getNode st i).type := by
  by_cases hij : i = j
  · subst hij
    by_cases hj : i < st.nodes.length
    · rw [getNode_setParent_self pid hj]
    · rw [setParent_of_le pid (Nat.le_of_not_lt hj)]
  · rw [getNode_setParent_ne pid hij]

theorem getNode_setParent_title (st : BuildState) (j : Nat) (pid : Option String) (i : Nat) :
    (getNode (setParent st j pid) i).title = (getNode st i).title := by
  by_cases hij : i = j
  · subst hij
    by_cases hj : i < st.nodes.length
    · rw [getNode_setParent_self pid hj]
    · rw [setParent_of_le pid (Nat.le_of_not_lt hj)]
  · rw [getNode_setParent_ne pid hij]

theorem getNode_setParent_children (st : BuildState) (j : Nat) (pid : Option String) (i : Nat) :
    (getNode (setParent st j pid) i).children = (getNode st i).children := by
  by_cases hij : i = j
  · subst hij
    by_cases hj : i < st.nodes.length
    · rw [getNode_setParent_self pid hj]
    · rw [setParent_of_le pid (Nat.le_of_not_lt hj)]
  · rw [getNode_setParent_ne pid hij]

theorem nodeMap_pushChild (st : BuildState) (p c : Nat) :
    (pushChild st p c).nodeMap = st.nodeMap := rfl

theorem nodeMap_setParent (st : BuildState) (j : Nat) (pid : Option String) :
    (setParent st j pid).nodeMap = st.nodeMap := rfl

theorem allNodes_pushChild (st : BuildState) (p c : Nat) :
    (pushChild st p c).allNodes = st.allNodes := rfl

theorem allNodes_setParent (st : BuildState) (j : Nat) (pid : Option String) :
    (setParent st j pid).allNodes = st.allNodes := rfl

end NotionDoc

namespace NotionDoc

theorem getNode_setChildren_ne {st : BuildState} {j i : Nat} (ch : List Nat)
    (h : i ≠ j) : getNode (setChildren st j ch) i = getNode st i := by
  simp [setChildren, getNode, List.getD_eq_getElem?_getD, List.getElem?_set_ne (Ne.symm h)]

theorem setChildren_of_le {st : BuildState} {j : Nat} (ch : List Nat)
    (h : st.nodes.length ≤ j) : setChildren st j ch = st := by
  simp [setChildren, List.set_eq_of_length_le h]

theorem getNode_setChildren_self {st : BuildState} {j : Nat} (ch : List Nat)
    (h : j < st.nodes.length) :
    getNode (setChildren st j ch) j = { getNode st j with children := ch } := by
  simp [setChildren, getNode, List.getD_eq_getElem?_getD, List.getElem?_set_self h]

theorem getNode_setChildren_type (st : BuildState) (j : Nat) (ch : List Nat) (i : Nat) :
    (getNode (setChildren st j ch) i).type = (getNode st i).type := by
  by_cases hij : i = j
  · subst hij
    by_cases hj : i < st.nodes.length
    · rw [getNode_setChildren_self ch hj]
    · rw [setChildren_of_le ch (Nat.le_of_not_lt hj)]
  · rw [getNode_setChildren_ne ch hij]

theorem length_setChildren (st : BuildState) (j : Nat) (ch : List Nat) :
    (setChildren st j ch).nodes.length = st.nodes.length := by
  simp [setChildren]

theorem mnLinkStep_snd (st : BuildState) (roots : List Nat) (idx : Nat) :
    (mnLinkStep (st, roots) idx).2 =
      if mnIsRoot st idx then roots ++ [idx] else roots := by
  simp only [mnLinkStep, mnIsRoot]
  by_cases h : strTruthy (getNode st idx).parentId = false
  · simp [h]
  · simp only [h, if_neg h, if_false]
    cases hm : mapGet st ((getNode st idx).parentId.getD "") with
    | none => simp [hm]
    | some pIdx =>
      by_cases hc : idx ∈ (getNode st pIdx).children <;> simp [hm, hc]

theorem mnLinkStep_fst_nodeMap (st : BuildState) (roots : List Nat) (idx : Nat) :
    ((mnLinkStep (st, roots) idx).1).nodeMap = st.nodeMap := by
  simp only [mnLinkStep]
  by_cases h : strTruthy (getNode st idx).parentId = false
  · simp [h]
  · simp only [h, if_false]
    cases hm : mapGet st ((getNode st idx).parentId.getD "") with
    | none => simp [hm]
    | some pIdx =>
      by_cases hc : idx ∈ (getNode st pIdx).children <;>
        simp [hm, hc, nodeMap_pushChild]

theorem mnLinkStep_fst_parentId (st : BuildState) (roots : List Nat) (idx i : Nat) :
    (getNode (mnLinkStep (st, roots) idx).1 i).parentId = (getNode st i).parentId := by
  simp only [mnLinkStep]
  by_cases h : strTruthy (getNode st idx).parentId = false
  · simp [h]
  · simp only [h, if_false]
    cases hm : mapGet st ((getNode st idx).parentId.getD "") with
    | none => simp [hm]
    | some pIdx =>
      by_cases hc : idx ∈ (getNode st pIdx).children <;>
        simp [hm, hc, getNode_pushChild_parentId]

theorem mnLinkStep_fst_type (st : BuildState) (roots : List Nat) (idx i : Nat) :
    (getNode (mnLinkStep (st, roots) idx).1 i).type = (getNode st i).type := by
  simp only [mnLinkStep]
  by_cases h : strTruthy (getNode st idx).parentId = false
  · simp [h]
  · simp only [h, if_false]
    cases hm : mapGet st ((getNode st idx).parentId.getD "") with
    | none => simp [hm]
    | some pIdx =>
      by_cases hc : idx ∈ (getNode st pIdx).children <;>
        simp [hm, hc, getNode_pushChild_type]

theorem mnLinkStep_fst_id (st : BuildState) (roots : List Nat) (idx i : Nat) :
    (getNode (mnLinkStep (st, roots) idx).1 i).id = (getNode st i).id := by
  simp only [mnLinkStep]
  by_cases h : strTruthy (getNode st idx).parentId = false
  · simp [h]
  · simp only [h, if_false]
    cases hm : mapGet st ((getNode st idx).parentId.getD "") with
    | none => simp [hm]
    | some pIdx =>
      by_cases hc : idx ∈ (getNode st pIdx).children <;>
        simp [hm, hc, getNode_pushChild_id]

theorem mnIsRoot_mnLinkStep (st : BuildState) (roots : List Nat) (idx i : Nat) :
    mnIsRoot (mnLinkStep (st, roots) idx).1 i = mnIsRoot st i := by
  simp [mnIsRoot, mapGet, mnLinkStep_fst_parentId, mnLinkStep_fst_nodeMap]

theorem mnLink_fold_snd (l : List Nat) (st : BuildState) (roots : List Nat) :
    (l.foldl mnLinkStep (st, roots)).2 =
      roots ++ l.filter (fun i => mnIsRoot st i) := by
  induction l generalizing st roots with
  | nil => simp
  | cons i l ih =>
    rw [List.foldl_cons]
    have hstep : mnLinkStep (st, roots) i =
        ((mnLinkStep (st, roots) i).1, (mnLinkStep (st, roots) i).2) := rfl
    rw [hstep, ih]
    have hroot : ∀ j, mnIsRoot (mnLinkStep (st, roots) i).1 j = mnIsRoot st j :=
      fun j => mnIsRoot_mnLinkStep st roots i j
    rw [List.filter_congr (fun j _ => hroot j), mnLinkStep_snd]
    by_cases h : mnIsRoot st i <;> simp [h]

end NotionDoc

namespace NotionDoc

/-- Root pick of the `TreeFormatter` link loop: non-skipped kind and root
condition. -/
def treeRootPick (st : BuildState) (idx : Nat) : Bool :=
  !treeLinkSkips (getNode st idx).type && treeIsRoot st idx

theorem treeLinkStep_snd (st : BuildState) (roots : List Nat) (idx : Nat) :
    (treeLinkStep (st, roots) idx).2 =
      if treeRootPick st idx then roots ++ [idx] else roots := by
  simp only [treeLinkStep, treeRootPick]
  by_cases hs : treeLinkSkips (getNode st idx).type
  · simp [hs]
  · by_cases hr : treeIsRoot st idx
    · simp [hs, hr]
    · simp only [hs, hr, if_false, Bool.not_false, Bool.true_and, Bool.and_false]
      cases hm : mapGet st ((getNode st idx).parentId.getD "") with
      | none => simp [hm, hr, hs]
      | some pIdx =>
        by_cases hdb : (getNode st pIdx).type = .database
        · cases hi : mapGet st (((getNode st idx).parentId.getD "") ++ "-items") with
          | none => simp [hm, hi, hdb, hr, hs]
          | some itemsIdx => simp [hm, hi, hdb, hr, hs]
        · simp [hm, hdb, hr, hs]

theorem treeLinkStep_fst_nodeMap (st : BuildState) (roots : List Nat) (idx : Nat) :
    ((treeLinkStep (st, roots) idx).1).nodeMap = st.nodeMap := by
  simp only [treeLinkStep]
  by_cases hs : treeLinkSkips (getNode st idx).type
  · simp [hs]
  · by_cases hr : treeIsRoot st idx
    · simp [hs, hr]
    · simp only [hs, hr, if_false]
      cases hm : mapGet st ((getNode st idx).parentId.getD "") with
      | none => simp [hm, hr, hs]
      | some pIdx =>
        by_cases hdb : (getNode st pIdx).type = .database
        · cases hi : mapGet st (((getNode st idx).parentId.getD "") ++ "-items") with
          | none => simp [hm, hi, hdb, hr, hs]
          | some itemsIdx => simp [hm, hi, hdb, hr, hs, nodeMap_pushChild]
        · simp [hm, hdb, hr, hs, nodeMap_pushChild]

theorem treeLinkStep_fst_parentId (st : BuildState) (roots : List Nat) (idx i : Nat) :
    (getNode (treeLinkStep (st, roots) idx).1 i).parentId = (getNode st i).parentId := by
  simp only [treeLinkStep]
  by_cases hs : treeLinkSkips (getNode st idx).type
  · simp [hs]
  · by_cases hr : treeIsRoot st idx
    · simp [hs, hr]
    · simp only [hs, hr, if_false]
      cases hm : mapGet st ((getNode st idx).parentId.getD "") with
      | none => simp [hm, hr, hs]
      | some pIdx =>
        by_cases hdb : (getNode st pIdx).type = .database
        · cases hi : mapGet st (((getNode st idx).parentId.getD "") ++ "-items") with
          | none => simp [hm, hi, hdb, hr, hs]
          | some itemsIdx => simp [hm, hi, hdb, hr, hs, getNode_pushChild_parentId]
        · simp [hm, hdb, hr, hs, getNode_pushChild_parentId]

theorem treeLinkStep_fst_type (st : BuildState) (roots : List Nat) (idx i : Nat) :
    (getNode (treeLinkStep (st, roots) idx).1 i).type = (getNode st i).type := by
  simp only [treeLinkStep]
  by_cases hs : treeLinkSkips (getNode st idx).type
  · simp [hs]
  · by_cases hr : treeIsRoot st idx
    · simp [hs, hr]
    · simp only [hs, hr, if_false]
      cases hm : mapGet st ((getNode st idx).parentId.getD "") with
      | none => simp [hm, hr, hs]
      | some pIdx =>
        by_cases hdb : (getNode st pIdx).type = .database
        · cases hi : mapGet st (((getNode st idx).parentId.getD "") ++ "-items") with
          | none => simp [hm, hi, hdb, hr, hs]
          | some itemsIdx => simp [hm, hi, hdb, hr, hs, getNode_pushChild_type]
        · simp [hm, hdb, hr, hs, getNode_pushChild_type]

theorem treeRootPick_treeLinkStep (st : BuildState) (roots : List Nat) (idx i : Nat) :
    treeRootPick (treeLinkStep (st, roots) idx).1 i = treeRootPick st i := by
  simp [treeRootPick, treeIsRoot, mapGet, treeLinkStep_fst_parentId,
    treeLinkStep_fst_nodeMap, treeLinkStep_fst_type]

theorem treeLink_fold_snd (l : List Nat) (st : BuildState) (roots : List Nat) :
    (l.foldl treeLinkStep (st, roots)).2 =
      roots ++ l.filter (fun i => treeRootPick st i) := by
  induction l generalizing st roots with
  | nil => simp
  | cons i l ih =>
    rw [List.foldl_cons]
    have hstep : treeLinkStep (st, roots) i =
        ((treeLinkStep (st, roots) i).1, (treeLinkStep (st, roots) i).2) := rfl
    rw [hstep, ih]
    have hroot : ∀ j, treeRootPick (treeLinkStep (st, roots) i).1 j = treeRootPick st j :=
      fun j => treeRootPick_treeLinkStep st roots i j
    rw [List.filter_congr (fun j _ => hroot j), treeLinkStep_snd]
    by_cases h : treeRootPick st i <;> simp [h]

theorem mem_insertSorted (le : α → α → Bool) (x : α) (l : List α) (a : α) :
    a ∈ insertSorted le x l ↔ a = x ∨ a ∈ l := by
  induction l with
  | nil => simp [insertSorted]
  | cons y ys ih =>
    cases hle : le y x with
    | true =>
      simp only [insertSorted, hle, if_true, List.mem_cons, ih]
      tauto
    | false => simp [insertSorted, hle, List.mem_cons]

theorem mem_stableSortBy (cmp : α → α → Int) (l : List α) (a : α) :
    a ∈ stableSortBy cmp l ↔ a ∈ l := by
  suffices h : ∀ (l acc : List α),
      (a ∈ l.foldl (fun acc x => insertSorted (fun a b => cmp a b ≤ 0) x acc) acc
        ↔ a ∈ acc ∨ a ∈ l) by
    have := h l []
    simpa [stableSortBy] using this
  intro l
  induction l with
  | nil => intro acc; simp
  | cons x xs ih =>
    intro acc
    rw [List.foldl_cons, ih, mem_insertSorted]
    simp only [List.mem_cons]
    tauto

theorem sortTreeNodesF_snd_mem (fuel : Nat) (st : BuildState) (idxs : List Nat) (a : Nat) :
    a ∈ (sortTreeNodesF fuel st idxs).2 ↔ a ∈ idxs := by
  cases fuel with
  | zero => simp [sortTreeNodesF]
  | succ fuel => simp [sortTreeNodesF, mem_stableSortBy]

theorem sortTreeNodesF_fst_type (fuel : Nat) (st : BuildState) (idxs : List Nat) (i : Nat) :
    (getNode (sortTreeNodesF fuel st idxs).1 i).type = (getNode st i).type := by
  induction fuel generalizing st idxs with
  | zero => simp [sortTreeNodesF]
  | succ fuel ih =>
    simp only [sortTreeNodesF]
    generalize stableSortBy (fun i j => cmpNodes (getNode st i) (getNode st j)) idxs = sorted
    suffices h : ∀ (l : List Nat) (st' : BuildState),
        (getNode (l.foldl (fun st i =>
          let p := sortTreeNodesF fuel st (getNode st i).children
          setChildren p.1 i p.2) st') i).type = (getNode st' i).type by
      exact h sorted st
    intro l
    induction l with
    | nil => intro st'; simp
    | cons j l ihl =>
      intro st'
      rw [List.foldl_cons, ihl]
      rw [getNode_setChildren_type, ih]

end NotionDoc

namespace NotionDoc

theorem mnBuild_rootNodes (cfg : MNConfig) (doc : WorkspaceDocumentation) :
    (mnBuild cfg doc).rootNodes =
      (((mnCreate cfg doc).1.allNodes).filter
        (fun i => mnIsRoot (mnCreate cfg doc).1 i)).reverse := by
  simp only [mnBuild]
  rw [show ((mnCreate cfg doc).1.allNodes.foldl mnLinkStep ((mnCreate cfg doc).1, [])) =
      (((mnCreate cfg doc).1.allNodes.foldl mnLinkStep ((mnCreate cfg doc).1, [])).1,
       ((mnCreate cfg doc).1.allNodes.foldl mnLinkStep ((mnCreate cfg doc).1, [])).2) from rfl]
  rw [mnLink_fold_snd]
  simp

theorem treeBuild_rootNodes_mem (doc : WorkspaceDocumentation) (i : Nat) :
    i ∈ (treeBuild doc).rootNodes ↔
      i ∈ ((treeCreate doc).1.allNodes).filter
        (fun j => treeRootPick (treeCreate doc).1 j) := by
  simp only [treeBuild]
  rw [show ((treeCreate doc).1.allNodes.foldl treeLinkStep ((treeCreate doc).1, [])) =
      (((treeCreate doc).1.allNodes.foldl treeLinkStep ((treeCreate doc).1, [])).1,
       ((treeCreate doc).1.allNodes.foldl treeLinkStep ((treeCreate doc).1, [])).2) from rfl]
  rw [show ∀ (st : BuildState) (l : List Nat),
      (sortTreeNodesF ((st.nodes.length) + 1) st l) =
        ((sortTreeNodesF ((st.nodes.length) + 1) st l).1,
         (sortTreeNodesF ((st.nodes.length) + 1) st l).2) from fun _ _ => rfl]
  simp only [List.mem_reverse, sortTreeNodesF_snd_mem]
  rw [treeLink_fold_snd]
  simp

end NotionDoc

namespace NotionDoc

/-- Identity environment used to instantiate the abstracted
`toLocaleString` rendering in witnesses. -/
def envId : String → String := fun s => s

/-- Aggregate with no pages and no databases. -/
def docEmpty : WorkspaceDocumentation :=
  ⟨"ts", "W", [], [], ⟨0, 0, 0⟩, true, false⟩

/-- Page whose parent is a database (legacy shape). -/
def cPageItem : PageInfo := ⟨"p1", "Item", "url", "t1", "t0", ⟨"database_id", some "d1"⟩⟩

/-- Legacy database with no schema fetched. -/
def cDbLegacyEmpty : DatabaseInfo :=
  ⟨"d1", "Tasks", "url", none, "t1", "t0", [], [], ⟨"workspace", none⟩⟩

/-- Legacy-shape aggregate with a database-parented page and
`includeItems = false`. -/
def docLegacyPage : WorkspaceDocumentation :=
  ⟨"ts", "W", [cPageItem], [cDbLegacyEmpty], ⟨1, 1, 0⟩, true, false⟩

/-- Page whose declared parent id resolves to nothing. -/
def cPageGhost : PageInfo := ⟨"p2", "Lost", "url", "t1", "t0", ⟨"page_id", some "ghost"⟩⟩

/-- Aggregate containing only the orphan page. -/
def docGhost : WorkspaceDocumentation :=
  ⟨"ts", "W", [cPageGhost], [], ⟨1, 0, 0⟩, true, false⟩

/-- Title property of the sample schemas. -/
def cPropName : DatabaseProperty := ⟨"pr1", "Name", "title", none, none⟩

/-- Status property of the sample schemas. -/
def cPropStatus : DatabaseProperty :=
  ⟨"pr2", "Status", "status", none, some (.optionList ["Done"])⟩

/-- Data source owning two properties. -/
def cDs : DataSource :=
  ⟨"s1", "SName", "STitle", none, [cPropName, cPropStatus], none,
    "database_id", "d2", "t0", "t1", none⟩

/-- Current-shape database owning the sample data source. -/
def cDbCurrent : DatabaseInfo :=
  ⟨"d2", "Cur", "url", none, "t1", "t0", [], [cDs], ⟨"workspace", none⟩⟩

/-- Current-shape aggregate with schema requested and items not. -/
def docDs : WorkspaceDocumentation :=
  ⟨"ts", "W", [], [cDbCurrent], ⟨0, 1, 2⟩, true, false⟩

/-- Current-shape aggregate that also carries one workspace-level page. -/
def docDsWithPage : WorkspaceDocumentation :=
  ⟨"ts", "W", [⟨"pa", "A", "url", "t1", "t0", ⟨"workspace", none⟩⟩], [cDbCurrent],
    ⟨1, 1, 2⟩, true, false⟩

/-- Two workspace-level pages, discovery order `B` then `A`. -/
def docTwoPages : WorkspaceDocumentation :=
  ⟨"ts", "W", [⟨"pb", "B", "url", "t1", "t0", ⟨"workspace", none⟩⟩,
    ⟨"pa", "A", "url", "t1", "t0", ⟨"workspace", none⟩⟩], [], ⟨2, 0, 0⟩, true, false⟩

/-- Legacy database with one property. -/
def cDbLegacyProps : DatabaseInfo :=
  ⟨"d3", "Leg", "url", none, "t1", "t0", [cPropName], [], ⟨"workspace", none⟩⟩

/-- Aggregate carrying legacy schema although `includeSchema = false`. -/
def docLegacySchemaFalse : WorkspaceDocumentation :=
  ⟨"ts", "W", [], [cDbLegacyProps], ⟨0, 1, 1⟩, false, false⟩

/-- C5, corrected.  The Markdown and Numbered builders return the roots
in reverse discovery order: the root list equals the reverse of the
creation-ordered `allNodes` array filtered by the root condition of the
link loop, so among root nodes the last-created entity appears first.
The original claim also covered the Tree builder, which sorts the root
list before reversing (see the counterexample). -/
theorem mn_rootNodes_reverse_of_discovery (cfg : MNConfig) (doc : WorkspaceDocumentation) :
    (mnBuild cfg doc).rootNodes =
      (((mnCreate cfg doc).1.allNodes).filter
        (fun i => mnIsRoot (mnCreate cfg doc).1 i)).reverse :=
  mnBuild_rootNodes cfg doc

/-- C5, counterexample.  Two workspace-level pages, discovery order
`B page` then `A page`: the Tree builder emits the roots as `[0, 1]`
(discovery order, because its alphabetical sibling sort happens before
the reversal), not the reverse `[1, 0]` required by the claim. -/
theorem tree_rootNodes_not_reverse_of_discovery :
    (treeCreate docTwoPages).1.allNodes = [0, 1]
    ∧ treeRootPick (treeCreate docTwoPages).1 0 = true
    ∧ treeRootPick (treeCreate docTwoPages).1 1 = true
    ∧ (treeBuild docTwoPages).rootNodes = [0, 1]
    ∧ (treeBuild docTwoPages).rootNodes ≠
        (((treeCreate docTwoPages).1.allNodes).filter
          (fun i => treeRootPick (treeCreate docTwoPages).1 i)).reverse := by
  refine ⟨by decide, by decide, by decide, by decide, by decide⟩

/-- C3, confirmed.  In every builder, a page or database node whose
declared parent id is not found in the node map is promoted to a root
node of the forest, never dropped (the embedding is total, so no run
throws). -/
theorem unfound_parent_promoted_to_root (cfg : MNConfig)
    (doc : WorkspaceDocumentation) (i : Nat) (p : String) :
    (i ∈ (mnCreate cfg doc).1.allNodes →
      ((getNode (mnCreate cfg doc).1 i).type = .page
        ∨ (getNode (mnCreate cfg doc).1 i).type = .database) →
      (getNode (mnCreate cfg doc).1 i).parentId = some p →
      mapGet (mnCreate cfg doc).1 p = none →
      i ∈ (mnBuild cfg doc).rootNodes)
    ∧ (i ∈ (treeCreate doc).1.allNodes →
      ((getNode (treeCreate doc).1 i).type = .page
        ∨ (getNode (treeCreate doc).1 i).type = .database) →
      (getNode (treeCreate doc).1 i).parentId = some p →
      mapGet (treeCreate doc).1 p = none →
      i ∈ (treeBuild doc).rootNodes) := by
  constructor
  · intro hmem htype hpid hlook
    rw [mnBuild_rootNodes, List.mem_reverse, List.mem_filter]
    refine ⟨hmem, ?_⟩
    by_cases hp : strTruthy (getNode (mnCreate cfg doc).1 i).parentId = false <;>
      simp [mnIsRoot, hpid, hlook, hp]
  · intro hmem htype hpid hlook
    rw [treeBuild_rootNodes_mem, List.mem_filter]
    refine ⟨hmem, ?_⟩
    have hskip : treeLinkSkips (getNode (treeCreate doc).1 i).type = false := by
      rcases htype with h | h <;> simp [treeLinkSkips, h]
    have hroot : treeIsRoot (treeCreate doc).1 i = true := by
      simp [treeIsRoot, hpid, hlook]
    simp [treeRootPick, hskip, hroot]

/-- C3, witness.  The aggregate `docGhost` holds one page whose parent
id `ghost` resolves to nothing; applying the theorem places its node at
the root of the Markdown and Tree forests. -/
theorem unfound_parent_promoted_to_root_witness :
    (0 ∈ (mnCreate markdownConfig docGhost).1.allNodes
      ∧ (getNode (mnCreate markdownConfig docGhost).1 0).type = .page
      ∧ (getNode (mnCreate markdownConfig docGhost).1 0).parentId = some "ghost"
      ∧ mapGet (mnCreate markdownConfig docGhost).1 "ghost" = none)
    ∧ 0 ∈ (mnBuild markdownConfig docGhost).rootNodes
    ∧ 0 ∈ (treeBuild docGhost).rootNodes := by
  refine ⟨⟨by decide, by decide, by decide, by decide⟩, ?_, ?_⟩
  · exact (unfound_parent_promoted_to_root markdownConfig docGhost 0 "ghost").1
      (by decide) (Or.inl (by decide)) (by decide) (by decide)
  · exact (unfound_parent_promoted_to_root markdownConfig docGhost 0 "ghost").2
      (by decide) (Or.inl (by decide)) (by decide) (by decide)

end NotionDoc

namespace NotionDoc

theorem appearsIn_of_eq {a s : String} (h : s = a) : appearsIn a s := by
  refine ⟨"", "", ?_⟩
  simp [h]

theorem appearsIn_of_mem_joinLines {a : String} :
    ∀ {l : List String}, a ∈ l → appearsIn a (joinLines l) := by
  intro l
  induction l with
  | nil => intro h; cases h
  | cons x xs ih =>
    intro h
    cases xs with
    | nil =>
      have : a = x := by simpa using h
      exact appearsIn_of_eq (by simp [joinLines, this])
    | cons y ys =>
      rcases List.mem_cons.mp h with h | h
      · subst h
        exact ⟨"", "\n" ++ joinLines (y :: ys), by simp [joinLines, String.append_assoc]⟩
      · obtain ⟨p, q, hpq⟩ := ih h
        exact ⟨x ++ "\n" ++ p, q, by simp [joinLines, hpq, String.append_assoc]⟩

theorem appearsIn_of_appearsIn_mem {a b : String} {l : List String}
    (hmem : a ∈ l) (hin : appearsIn b a) : appearsIn b (joinLines l) := by
  obtain ⟨p, q, hpq⟩ := appearsIn_of_mem_joinLines hmem
  obtain ⟨p', q', hpq'⟩ := hin
  exact ⟨p ++ p', q' ++ q, by simp [hpq, hpq', String.append_assoc]⟩

theorem mnCreate_empty (cfg : MNConfig) (doc : WorkspaceDocumentation)
    (hp : doc.pages = []) (hd : doc.databases = []) :
    mnCreate cfg doc = (BuildState.empty, []) := by
  simp [mnCreate, mnAddPages, hp, hd]

theorem mnBuild_empty (cfg : MNConfig) (doc : WorkspaceDocumentation)
    (hp : doc.pages = []) (hd : doc.databases = []) :
    mnBuild cfg doc = ⟨BuildState.empty, []⟩ := by
  simp [mnBuild, mnCreate_empty cfg doc hp hd, BuildState.empty]

theorem treeCreate_empty (doc : WorkspaceDocumentation)
    (hp : doc.pages = []) (hd : doc.databases = []) :
    treeCreate doc = (BuildState.empty, []) := by
  simp [treeCreate, treeAddPages, hp, hd]

theorem treeBuild_empty (doc : WorkspaceDocumentation)
    (hp : doc.pages = []) (hd : doc.databases = []) :
    treeBuild doc = ⟨BuildState.empty, []⟩ := by
  simp [treeBuild, treeCreate_empty doc hp hd, BuildState.empty, sortTreeNodesF, stableSortBy]

/-- C1, corrected.  For an aggregate with no pages and no databases the
Markdown and ASCII-tree renderers emit the explicit message
`No accessible content found.`, but the Numbered renderer returns an
empty body (and the claim demanded the message of every renderer). -/
theorem empty_aggregate_renderer_bodies (env : String → String)
    (doc : WorkspaceDocumentation) (hp : doc.pages = []) (hd : doc.databases = []) :
    appearsIn "No accessible content found." (markdownFormat env doc)
    ∧ appearsIn "No accessible content found." (treeFormat env doc)
    ∧ numberedFormat doc = "" := by
  refine ⟨?_, ?_, ?_⟩
  · rw [markdownFormat]
    rw [mnBuild_empty markdownConfig doc hp hd]
    apply appearsIn_of_mem_joinLines
    simp
  · rw [treeFormat]
    rw [treeBuild_empty doc hp hd]
    apply appearsIn_of_mem_joinLines
    simp
  · rw [numberedFormat]
    rw [mnBuild_empty numberedConfig doc hp hd]
    simp [joinLines]

/-- C1, counterexample.  On the empty aggregate the Numbered renderer
returns the empty string, which does not contain the required phrase, so
not every renderer emits the no-content message. -/
theorem empty_aggregate_numbered_empty_body :
    docEmpty.pages = [] ∧ docEmpty.databases = []
    ∧ numberedFormat docEmpty = ""
    ∧ ¬ appearsIn "No accessible content found." (numberedFormat docEmpty) := by
  refine ⟨rfl, rfl, by decide, ?_⟩
  intro h
  obtain ⟨p, q, hpq⟩ := h
  have hlen : (numberedFormat docEmpty).length
      = p.length + "No accessible content found.".length + q.length := by
    rw [hpq]
    simp [String.length_append]
  have hzero : (numberedFormat docEmpty).length = 0 := by decide
  rw [hzero] at hlen
  have hpl : 0 < "No accessible content found.".length := by decide
  omega

/-- C1, witness for the amended claim at the concrete empty aggregate. -/
theorem empty_aggregate_renderer_bodies_witness :
    docEmpty.pages = [] ∧ docEmpty.databases = []
    ∧ (appearsIn "No accessible content found." (markdownFormat envId docEmpty)
      ∧ appearsIn "No accessible content found." (treeFormat envId docEmpty)
      ∧ numberedFormat docEmpty = "") :=
  ⟨rfl, rfl, empty_aggregate_renderer_bodies envId docEmpty rfl rfl⟩

end NotionDoc

namespace NotionDoc

/-- C10, confirmed.  The factory returns a formatter exactly for the
case-insensitive identifiers json, markdown, md, csv, tree and numbered,
and fails with the `Unsupported format` error on every other input — an
unrecognised identifier is the only failure. -/
theorem factory_create_classification (s : String) :
    ((∃ k, FormatterFactory.create s = .ok k) ↔
      jsToLower s ∈ ["json", "markdown", "md", "csv", "tree", "numbered"])
    ∧ (jsToLower s ∉ ["json", "markdown", "md", "csv", "tree", "numbered"] →
      FormatterFactory.create s = .error ("Unsupported format: " ++ s)) := by
  simp only [FormatterFactory.create]
  split_ifs with h1 h2 h3 h4 h5 <;> (simp_all; try tauto)

/-- C10, witness: `Markdown` resolves case-insensitively, `XLSX` is
rejected with the `Unsupported format` message. -/
theorem factory_create_classification_witness :
    (∃ k, FormatterFactory.create "Markdown" = .ok k)
    ∧ FormatterFactory.create "XLSX" = .error "Unsupported format: XLSX" := by
  refine ⟨?_, ?_⟩
  · exact (factory_create_classification "Markdown").1.mpr (by decide)
  · exact (factory_create_classification "XLSX").2 (by decide)

end NotionDoc

namespace NotionDoc

/-- C6, confirmed.  A relation property renders `two-way` exactly when a
dual/synced property is present and `one-way` otherwise, `limit: 1 page`
exactly when `single_property` is defined and `no limit` otherwise, in
all three property formatters; the target name falls back to the raw id
whenever the id resolves to no database, and the total embedding never
fails. -/
theorem relation_property_formatting (nm pid : String) (desc : Option String)
    (dbs : List DatabaseInfo) (t : String) (dual single : Bool) (ht : t ≠ "") :
    treeFormatPropertyTitle ⟨pid, nm, "relation", desc, some (.relation (some t) dual single)⟩ dbs
      = nm ++ " (relation) → " ++ resolveDbName dbs t ++ " ("
        ++ (if dual then "two-way" else "one-way") ++ ", "
        ++ (if single then "limit: 1 page" else "no limit") ++ ")"
    ∧ numberedFormatPropertyTitle
        ⟨pid, nm, "relation", desc, some (.relation (some t) dual single)⟩ dbs
      = nm ++ " (relation) → " ++ resolveDbName dbs t ++ " ("
        ++ (if dual then "two-way" else "one-way") ++ ", "
        ++ (if single then "limit: 1 page" else "no limit") ++ ")"
    ∧ markdownFormatPropertyTitle
        ⟨pid, nm, "relation", desc, some (.relation (some t) dual single)⟩ dbs
      = nm ++ "|" ++ pid ++ ", relation, → " ++ resolveDbName dbs t ++ " ("
        ++ (if dual then "two-way" else "one-way") ++ ", "
        ++ (if single then "limit: 1 page" else "no limit") ++ ")"
        ++ (match desc with
            | some d => if d = "" then "" else ", " ++ d
            | none => "")
    ∧ ((∀ db ∈ dbs, db.id ≠ t) → resolveDbName dbs t = t) := by
  refine ⟨?_, ?_, ?_, ?_⟩
  · simp [treeFormatPropertyTitle, strTruthy, ht, relationConstraints, String.append_assoc]
  · simp [numberedFormatPropertyTitle, strTruthy, ht, relationConstraints, String.append_assoc]
  · have m : ∀ x : String, x ++ ", " ++ "relation, → " = x ++ ", relation, → " :=
      fun x => by rw [String.append_assoc]; rfl
    cases desc with
    | none =>
      simp [markdownFormatPropertyTitle, strTruthy, ht, relationConstraints,
        joinSep, ← String.append_assoc]
      simp only [m]
    | some d =>
      by_cases hd : d = "" <;>
        (simp [markdownFormatPropertyTitle, strTruthy, ht, hd, relationConstraints,
          joinSep, ← String.append_assoc]
         simp only [m])
  · intro h
    have : dbs.find? (fun db => db.id = t) = none := by
      rw [List.find?_eq_none]
      intro db hdb
      simp [h db hdb]
    simp [resolveDbName, this]

/-- C6, witness: a two-way unlimited relation whose target `tgt` is
absent from the database list falls back to the raw id. -/
theorem relation_property_formatting_witness :
    treeFormatPropertyTitle ⟨"pidr", "Rel", "relation", none,
        some (.relation (some "tgt") true false)⟩ []
      = "Rel (relation) → tgt (two-way, no limit)"
    ∧ resolveDbName [] "tgt" = "tgt" := by
  have h := relation_property_formatting "Rel" "pidr" none [] "tgt" true false (by decide)
  refine ⟨?_, h.2.2.2 (by simp)⟩
  rw [h.1, h.2.2.2 (by simp)]
  simp

end NotionDoc

namespace NotionDoc

/-- C7, corrected.  For select, multi_select and status properties the
tree and numbered formatters append ` [opt1, opt2, ...]` only when the
option list is non-empty and render just `<name> (<type>)` for an empty
list; the Markdown formatter does render `[]` for an empty list, inside
its pipe-delimited encoding rather than the claimed
`<name> (<type>) [...]` shape. -/
theorem select_like_property_formatting (nm pid : String) (desc : Option String)
    (dbs : List DatabaseInfo) (names : List String) (ty : String)
    (hty : ty = "select" ∨ ty = "multi_select" ∨ ty = "status") :
    treeFormatPropertyTitle ⟨pid, nm, ty, desc, some (.optionList names)⟩ dbs
      = (if names = [] then nm ++ " (" ++ ty ++ ")"
         else nm ++ " (" ++ ty ++ ")" ++ " [" ++ joinSep ", " names ++ "]")
    ∧ numberedFormatPropertyTitle ⟨pid, nm, ty, desc, some (.optionList names)⟩ dbs
      = (if names = [] then nm ++ " (" ++ ty ++ ")"
         else nm ++ " (" ++ ty ++ ")" ++ " [" ++ joinSep ", " names ++ "]")
    ∧ markdownFormatPropertyTitle ⟨pid, nm, ty, desc, some (.optionList names)⟩ dbs
      = nm ++ "|" ++ joinSep ", "
          ([pid, ty, if names = [] then "[]" else "[" ++ joinSep ", " names ++ "]"]
            ++ (match desc with
                | some d => if d = "" then [] else [d]
                | none => [])) := by
  refine ⟨?_, ?_, ?_⟩
  · rcases hty with h | h | h <;> subst h <;> cases names <;>
      simp [treeFormatPropertyTitle]
  · rcases hty with h | h | h <;> subst h <;> cases names <;>
      simp [numberedFormatPropertyTitle]
  · rcases hty with h | h | h <;> subst h <;> cases names <;>
      simp [markdownFormatPropertyTitle, String.append_assoc]

/-- C7, counterexample.  A select property with an empty option list
renders without any bracket segment in the tree formatter, not with the
claimed literal `[]`. -/
theorem select_empty_options_render :
    treeFormatPropertyTitle ⟨"pr9", "S", "select", none, some (.optionList [])⟩ [] = "S (select)"
    ∧ ¬ appearsIn "[]"
        (treeFormatPropertyTitle ⟨"pr9", "S", "select", none, some (.optionList [])⟩ []) := by
  have h1 : treeFormatPropertyTitle ⟨"pr9", "S", "select", none, some (.optionList [])⟩ []
      = "S (select)" := by decide
  refine ⟨h1, ?_⟩
  rw [h1]
  rintro ⟨p, q, hpq⟩
  have hmem : '[' ∈ ("S (select)" : String).data := by
    rw [hpq]
    simp [String.data_append]
  exact absurd hmem (by decide)

/-- C7, witness for the amended claim: a status property with one option
renders with the bracketed option list. -/
theorem select_like_property_formatting_witness :
    treeFormatPropertyTitle ⟨"pr2", "Status", "status", none,
      some (.optionList ["Done"])⟩ [] = "Status (status) [Done]" := by
  have h := (select_like_property_formatting "Status" "pr2" none [] ["Done"] "status"
    (Or.inr (Or.inr rfl))).1
  rw [h]
  decide

end NotionDoc

namespace NotionDoc

theorem mnProcessDs_snd (cfg : MNConfig) (doc : WorkspaceDocumentation) (dbIdx : Nat)
    (dbId : String) (st : BuildState) (ds : DataSource) :
    (mnProcessDs cfg doc dbIdx dbId st ds).2 = ds := by
  simp only [mnProcessDs, copyReverse]
  split <;> rfl

theorem mnDsFold_snd (cfg : MNConfig) (doc : WorkspaceDocumentation)
    (dbIdx : Nat) (dbId : String) :
    ∀ (l : List DataSource) (s : BuildState) (acc : List DataSource),
      (l.foldl (fun (acc : BuildState × List DataSource) ds =>
        ((mnProcessDs cfg doc dbIdx dbId acc.1 ds).1,
          acc.2 ++ [(mnProcessDs cfg doc dbIdx dbId acc.1 ds).2])) (s, acc)).2
      = acc ++ l := by
  intro l
  induction l with
  | nil => intro s acc; simp
  | cons ds l ih =>
    intro s acc
    rw [List.foldl_cons]
    have h := ih ((mnProcessDs cfg doc dbIdx dbId s ds).1)
      (acc ++ [(mnProcessDs cfg doc dbIdx dbId s ds).2])
    simpa [mnProcessDs_snd] using h

theorem mnProcessDb_snd (cfg : MNConfig) (doc : WorkspaceDocumentation)
    (st : BuildState) (database : DatabaseInfo) :
    (mnProcessDb cfg doc st database).2 = database := by
  simp only [mnProcessDb]
  split
  · rw [mnDsFold_snd]
    simp
  · split
    · simp [copyReverse]
    · rfl

end NotionDoc

namespace NotionDoc

theorem mnDbFold_snd (cfg : MNConfig) (doc : WorkspaceDocumentation) :
    ∀ (l : List DatabaseInfo) (s : BuildState) (acc : List DatabaseInfo),
      (l.foldl (fun (acc : BuildState × List DatabaseInfo) database =>
        ((mnProcessDb cfg doc acc.1 database).1,
          acc.2 ++ [(mnProcessDb cfg doc acc.1 database).2])) (s, acc)).2
      = acc ++ l := by
  intro l
  induction l with
  | nil => intro s acc; simp
  | cons database l ih =>
    intro s acc
    rw [List.foldl_cons]
    have h := ih ((mnProcessDb cfg doc s database).1)
      (acc ++ [(mnProcessDb cfg doc s database).2])
    simpa [mnProcessDb_snd] using h

theorem mnObservedDatabases_eq (cfg : MNConfig) (doc : WorkspaceDocumentation) :
    mnObservedDatabases cfg doc = doc.databases := by
  simp only [mnObservedDatabases, mnCreate]
  rw [mnDbFold_snd]
  simp

theorem treeProcessDs_snd (doc : WorkspaceDocumentation) (dbIdx : Nat)
    (dbId : String) (st : BuildState) (ds : DataSource) :
    (treeProcessDs doc dbIdx dbId st ds).2 = ds := by
  simp only [treeProcessDs, copySortTitleFirst]
  split <;> rfl

theorem treeDsFold_snd (doc : WorkspaceDocumentation) (dbIdx : Nat) (dbId : String) :
    ∀ (l : List DataSource) (s : BuildState) (acc : List DataSource),
      (l.foldl (fun (acc : BuildState × List DataSource) ds =>
        ((treeProcessDs doc dbIdx dbId acc.1 ds).1,
          acc.2 ++ [(treeProcessDs doc dbIdx dbId acc.1 ds).2])) (s, acc)).2
      = acc ++ l := by
  intro l
  induction l with
  | nil => intro s acc; simp
  | cons ds l ih =>
    intro s acc
    rw [List.foldl_cons]
    have h := ih ((treeProcessDs doc dbIdx dbId s ds).1)
      (acc ++ [(treeProcessDs doc dbIdx dbId s ds).2])
    simpa [treeProcessDs_snd] using h

theorem treeProcessDb_snd (doc : WorkspaceDocumentation)
    (st : BuildState) (database : DatabaseInfo) :
    (treeProcessDb doc st database).2 = database := by
  simp only [treeProcessDb]
  by_cases hlen : database.dataSources.length > 0 <;>
    by_cases hprops : database.properties.length > 0 <;>
      simp [hlen, hprops, copySortTitleFirst, treeDsFold_snd]

theorem treeDbFold_snd (doc : WorkspaceDocumentation) :
    ∀ (l : List DatabaseInfo) (s : BuildState) (acc : List DatabaseInfo),
      (l.foldl (fun (acc : BuildState × List DatabaseInfo) database =>
        ((treeProcessDb doc acc.1 database).1,
          acc.2 ++ [(treeProcessDb doc acc.1 database).2])) (s, acc)).2
      = acc ++ l := by
  intro l
  induction l with
  | nil => intro s acc; simp
  | cons database l ih =>
    intro s acc
    rw [List.foldl_cons]
    have h := ih ((treeProcessDb doc s database).1)
      (acc ++ [(treeProcessDb doc s database).2])
    simpa [treeProcessDb_snd] using h

theorem treeObservedDatabases_eq (doc : WorkspaceDocumentation) :
    treeObservedDatabases doc = doc.databases := by
  simp only [treeObservedDatabases, treeCreate]
  rw [treeDbFold_snd]
  simp

/-- C9, confirmed.  The builders observe the shared entity lists only
through the copy helpers (`[...xs].reverse()`, `[...xs].sort(cmp)`), so
the databases as observed after any builder run coincide with the input,
and re-rendering the aggregate made of the observed entities — a second
render after the tree builder already ran once — is byte-identical for
the Markdown, tree and numbered formats. -/
theorem renderer_no_mutation_and_determinism (cfg : MNConfig)
    (doc : WorkspaceDocumentation) (env : String → String) :
    mnObservedDatabases cfg doc = doc.databases
    ∧ treeObservedDatabases doc = doc.databases
    ∧ markdownFormat env { doc with databases := mnObservedDatabases markdownConfig doc }
      = markdownFormat env doc
    ∧ treeFormat env { doc with databases := treeObservedDatabases doc }
      = treeFormat env doc
    ∧ numberedFormat { doc with databases := mnObservedDatabases numberedConfig doc }
      = numberedFormat doc := by
  refine ⟨mnObservedDatabases_eq cfg doc, treeObservedDatabases_eq doc, ?_, ?_, ?_⟩
  · rw [mnObservedDatabases_eq]
  · rw [treeObservedDatabases_eq]
  · rw [mnObservedDatabases_eq]

end NotionDoc

namespace NotionDoc

/-- Invariant on the node type and id of every node of a store
(including the default node read out of range). -/
def TypedIdInv (P : NodeType → String → Prop) (st : BuildState) : Prop :=
  ∀ i, P (getNode st i).type (getNode st i).id

theorem tii_empty {P : NodeType → String → Prop}
    (hd : P .viewsSection "") : TypedIdInv P BuildState.empty := by
  intro i
  rw [getNode_of_length_le (by simp [BuildState.empty])]
  exact hd

theorem tii_mapSet {P : NodeType → String → Prop} {st : BuildState}
    (h : TypedIdInv P st) (k : String) (v : Nat) : TypedIdInv P (mapSet st k v) := h

theorem tii_pushAll {P : NodeType → String → Prop} {st : BuildState}
    (h : TypedIdInv P st) (j : Nat) : TypedIdInv P (pushAll st j) := h

theorem tii_pushChild {P : NodeType → String → Prop} {st : BuildState}
    (h : TypedIdInv P st) (p c : Nat) : TypedIdInv P (pushChild st p c) := by
  intro i
  rw [getNode_pushChild_type, getNode_pushChild_id]
  exact h i

theorem tii_setParent {P : NodeType → String → Prop} {st : BuildState}
    (h : TypedIdInv P st) (j : Nat) (pid : Option String) :
    TypedIdInv P (setParent st j pid) := by
  intro i
  rw [getNode_setParent_type, getNode_setParent_id]
  exact h i

theorem tii_newNode {P : NodeType → String → Prop} {st : BuildState}
    (h : TypedIdInv P st) {n : TreeNode} (hn : P n.type n.id)
    (hd : P .viewsSection "") : TypedIdInv P ((newNode st n).2) := by
  intro i
  rcases Nat.lt_trichotomy i st.nodes.length with h1 | h1 | h1
  · rw [getNode_newNode_lt n h1]
    exact h i
  · subst h1
    rw [getNode_newNode_self]
    exact hn
  · rw [getNode_newNode_gt n h1]
    exact hd

theorem mnLink_fold_fst_type (l : List Nat) (st : BuildState) (roots : List Nat) (i : Nat) :
    (getNode (l.foldl mnLinkStep (st, roots)).1 i).type = (getNode st i).type := by
  induction l generalizing st roots with
  | nil => simp
  | cons j l ih =>
    rw [List.foldl_cons,
      show mnLinkStep (st, roots) j =
        ((mnLinkStep (st, roots) j).1, (mnLinkStep (st, roots) j).2) from rfl,
      ih, mnLinkStep_fst_type]

theorem mnLink_fold_fst_id (l : List Nat) (st : BuildState) (roots : List Nat) (i : Nat) :
    (getNode (l.foldl mnLinkStep (st, roots)).1 i).id = (getNode st i).id := by
  induction l generalizing st roots with
  | nil => simp
  | cons j l ih =>
    rw [List.foldl_cons,
      show mnLinkStep (st, roots) j =
        ((mnLinkStep (st, roots) j).1, (mnLinkStep (st, roots) j).2) from rfl,
      ih, mnLinkStep_fst_id]

theorem treeLinkStep_fst_id (st : BuildState) (roots : List Nat) (idx i : Nat) :
    (getNode (treeLinkStep (st, roots) idx).1 i).id = (getNode st i).id := by
  simp only [treeLinkStep]
  by_cases hs : treeLinkSkips (getNode st idx).type
  · simp [hs]
  · by_cases hr : treeIsRoot st idx
    · simp [hs, hr]
    · simp only [hs, hr, if_false]
      cases hm : mapGet st ((getNode st idx).parentId.getD "") with
      | none => simp [hm, hr, hs]
      | some pIdx =>
        by_cases hdb : (getNode st pIdx).type = .database
        · cases hi : mapGet st (((getNode st idx).parentId.getD "") ++ "-items") with
          | none => simp [hm, hi, hdb, hr, hs]
          | some itemsIdx => simp [hm, hi, hdb, hr, hs, getNode_pushChild_id]
        · simp [hm, hdb, hr, hs, getNode_pushChild_id]

theorem treeLink_fold_fst_type (l : List Nat) (st : BuildState) (roots : List Nat) (i : Nat) :
    (getNode (l.foldl treeLinkStep (st, roots)).1 i).type = (getNode st i).type := by
  induction l generalizing st roots with
  | nil => simp
  | cons j l ih =>
    rw [List.foldl_cons,
      show treeLinkStep (st, roots) j =
        ((treeLinkStep (st, roots) j).1, (treeLinkStep (st, roots) j).2) from rfl,
      ih, treeLinkStep_fst_type]

end NotionDoc

namespace NotionDoc

/-- Safety predicate of C2: every page node of the store stems from a
page of the aggregate whose parent is not a database or data source. -/
def pageFromSafe (doc : WorkspaceDocumentation) : NodeType → String → Prop :=
  fun ty id => ty = .page → ∃ p ∈ doc.pages, id = p.id
    ∧ p.parent.type ≠ "database_id" ∧ p.parent.type ≠ "data_source_id"

theorem pageFromSafe_nonpage (doc : WorkspaceDocumentation) :
    ∀ ty id, ty ≠ .page → pageFromSafe doc ty id := by
  intro ty id hne hty
  exact absurd hty hne

theorem mnAddPages_tii (doc : WorkspaceDocumentation) (st : BuildState)
    (hds : hasDataSources doc = true)
    (h : TypedIdInv (pageFromSafe doc) st) :
    TypedIdInv (pageFromSafe doc) (mnAddPages doc st) := by
  rw [mnAddPages]
  refine List.foldlRecOn doc.pages _ st h ?_
  intro st' hst' page hpage
  dsimp only
  split
  · exact hst'
  · rename_i hskip
    refine tii_mapSet (tii_pushAll (tii_newNode hst' ?_ ?_) _) _ _
    · intro _
      refine ⟨page, hpage, rfl, ?_, ?_⟩
      · intro hq
        exact hskip ⟨hds, Or.inl hq⟩
      · intro hq
        exact hskip ⟨hds, Or.inr hq⟩
    · exact pageFromSafe_nonpage doc _ _ (by decide)

theorem mnProcessDs_tii (cfg : MNConfig) (doc : WorkspaceDocumentation)
    (dbIdx : Nat) (dbId : String) (st : BuildState) (ds : DataSource)
    (hItems : doc.includeItems = false)
    {P : NodeType → String → Prop}
    (hnonpage : ∀ ty id, ty ≠ .page → P ty id)
    (h : TypedIdInv P st) :
    TypedIdInv P (mnProcessDs cfg doc dbIdx dbId st ds).1 := by
  simp only [mnProcessDs, hItems, Bool.false_eq_true, false_and, if_false]
  rcases hdp : ds.pages with _ | dsPages <;> simp only [] <;> split
  case none.isFalse =>
    refine tii_mapSet (tii_pushChild (tii_newNode h
      (hnonpage _ _ ?_) (hnonpage _ _ ?_)) _ _) _ _ <;> simp
  case some.isFalse =>
    refine tii_mapSet (tii_pushChild (tii_newNode h
      (hnonpage _ _ ?_) (hnonpage _ _ ?_)) _ _) _ _ <;> simp
  case none.isTrue =>
    refine List.foldlRecOn _ _ _ ?_ ?_
    · refine tii_mapSet (tii_pushChild (tii_newNode
        (tii_mapSet (tii_pushChild (tii_newNode h
          (hnonpage _ _ ?_) (hnonpage _ _ ?_)) _ _) _ _)
        (hnonpage _ _ ?_) (hnonpage _ _ ?_)) _ _) _ _ <;> simp
    · intro st2 h2 property hprop
      dsimp only
      refine tii_mapSet (tii_pushChild (tii_newNode h2
        (hnonpage _ _ ?_) (hnonpage _ _ ?_)) _ _) _ _ <;> simp
  case some.isTrue =>
    refine List.foldlRecOn _ _ _ ?_ ?_
    · refine tii_mapSet (tii_pushChild (tii_newNode
        (tii_mapSet (tii_pushChild (tii_newNode h
          (hnonpage _ _ ?_) (hnonpage _ _ ?_)) _ _) _ _)
        (hnonpage _ _ ?_) (hnonpage _ _ ?_)) _ _) _ _ <;> simp
    · intro st2 h2 property hprop
      dsimp only
      refine tii_mapSet (tii_pushChild (tii_newNode h2
        (hnonpage _ _ ?_) (hnonpage _ _ ?_)) _ _) _ _ <;> simp

end NotionDoc

namespace NotionDoc

theorem mnProcessDb_tii (cfg : MNConfig) (doc : WorkspaceDocumentation)
    (st : BuildState) (database : DatabaseInfo)
    (hItems : doc.includeItems = false)
    {P : NodeType → String → Prop}
    (hnonpage : ∀ ty id, ty ≠ .page → P ty id)
    (h : TypedIdInv P st) :
    TypedIdInv P (mnProcessDb cfg doc st database).1 := by
  simp only [mnProcessDb, hItems, Bool.false_eq_true, if_false]
  split
  · dsimp only
    refine @List.foldlRecOn _ _ (fun (acc : BuildState × List DataSource) => TypedIdInv P acc.1) _ _ _ ?_ ?_
    · refine tii_mapSet (tii_pushAll (tii_newNode h
        (hnonpage _ _ ?_) (hnonpage _ _ ?_)) _) _ _ <;> simp
    · intro acc hacc ds hds
      dsimp only
      exact mnProcessDs_tii cfg doc _ _ _ _ hItems hnonpage hacc
  · split
    · refine List.foldlRecOn _ _ _ ?_ ?_
      · refine tii_mapSet (tii_pushChild (tii_newNode
          (tii_mapSet (tii_pushAll (tii_newNode h
            (hnonpage _ _ ?_) (hnonpage _ _ ?_)) _) _ _)
          (hnonpage _ _ ?_) (hnonpage _ _ ?_)) _ _) _ _ <;> simp
      · intro st2 h2 property hprop
        dsimp only
        refine tii_mapSet (tii_pushChild (tii_newNode h2
          (hnonpage _ _ ?_) (hnonpage _ _ ?_)) _ _) _ _ <;> simp
    · refine tii_mapSet (tii_pushAll (tii_newNode h
        (hnonpage _ _ ?_) (hnonpage _ _ ?_)) _) _ _ <;> simp

theorem mnCreate_tii (cfg : MNConfig) (doc : WorkspaceDocumentation)
    (hItems : doc.includeItems = false)
    {P : NodeType → String → Prop}
    (hnonpage : ∀ ty id, ty ≠ .page → P ty id)
    (hpages : TypedIdInv P (mnAddPages doc BuildState.empty)) :
    TypedIdInv P (mnCreate cfg doc).1 := by
  simp only [mnCreate]
  have hfold : ∀ (l : List DatabaseInfo) (acc : BuildState × List DatabaseInfo),
      TypedIdInv P acc.1 →
      TypedIdInv P ((l.foldl (fun (acc : BuildState × List DatabaseInfo) database =>
        ((mnProcessDb cfg doc acc.1 database).1,
          acc.2 ++ [(mnProcessDb cfg doc acc.1 database).2])) acc).1) := by
    intro l
    induction l with
    | nil => intro acc hacc; exact hacc
    | cons database l ih =>
      intro acc hacc
      rw [List.foldl_cons]
      exact ih _ (mnProcessDb_tii cfg doc _ _ hItems hnonpage hacc)
  exact hfold doc.databases (mnAddPages doc BuildState.empty, []) hpages

/-- C2, corrected.  When the aggregate uses the data-source shape and
`includeItems = false`, every page node anywhere in the store (hence in
the forest) of the Markdown/Numbered builders stems from a page of the
aggregate whose parent type is neither `database_id` nor
`data_source_id`.  In the legacy shape the claim fails: see the
counterexample, where a database-parented page is attached below its
database node although `includeItems = false`. -/
theorem includeItems_false_excludes_item_pages (cfg : MNConfig)
    (doc : WorkspaceDocumentation)
    (hItems : doc.includeItems = false)
    (hds : hasDataSources doc = true) :
    ∀ i, (getNode (mnBuild cfg doc).state i).type = .page →
      ∃ p ∈ doc.pages, (getNode (mnBuild cfg doc).state i).id = p.id
        ∧ p.parent.type ≠ "database_id" ∧ p.parent.type ≠ "data_source_id" := by
  intro i
  have hstate : (mnBuild cfg doc).state =
      ((mnCreate cfg doc).1.allNodes.foldl mnLinkStep ((mnCreate cfg doc).1, [])).1 := by
    simp [mnBuild]
  rw [hstate, mnLink_fold_fst_type, mnLink_fold_fst_id]
  have htii : TypedIdInv (pageFromSafe doc) (mnCreate cfg doc).1 := by
    refine mnCreate_tii cfg doc hItems (pageFromSafe_nonpage doc) ?_
    refine mnAddPages_tii doc BuildState.empty hds ?_
    exact tii_empty (pageFromSafe_nonpage doc _ _ (by decide))
  exact htii i

/-- C2, counterexample.  With `includeItems = false` in the legacy shape
the Markdown builder still attaches the database-parented page `p1`
below its database node, so the page appears in the forest. -/
theorem legacy_item_page_in_forest_with_includeItems_false :
    docLegacyPage.includeItems = false
    ∧ docLegacyPage.pages.map (fun p => p.parent.type) = ["database_id"]
    ∧ InForest (mnBuild markdownConfig docLegacyPage) 0
    ∧ (getNode (mnBuild markdownConfig docLegacyPage).state 0).type = .page
    ∧ (getNode (mnBuild markdownConfig docLegacyPage).state 0).id = "p1" := by
  refine ⟨rfl, by decide, ?_, by decide, by decide⟩
  have hroot : InForest (mnBuild markdownConfig docLegacyPage) 1 :=
    InForest.root (by decide)
  exact hroot.child (by decide)

/-- C2, witness for the amended claim on a concrete data-source-shape
aggregate with `includeItems = false`. -/
theorem includeItems_false_excludes_item_pages_witness :
    docDsWithPage.includeItems = false
    ∧ hasDataSources docDsWithPage = true
    ∧ (∀ i, (getNode (mnBuild markdownConfig docDsWithPage).state i).type = .page →
      ∃ p ∈ docDsWithPage.pages,
        (getNode (mnBuild markdownConfig docDsWithPage).state i).id = p.id
        ∧ p.parent.type ≠ "database_id" ∧ p.parent.type ≠ "data_source_id") :=
  ⟨rfl, by decide,
    includeItems_false_excludes_item_pages markdownConfig docDsWithPage rfl (by decide)⟩

end NotionDoc

namespace NotionDoc

/-- Predicate of C8: the node is not a properties section. -/
def secFree : NodeType → String → Prop := fun ty _ => ty ≠ .propertiesSection

theorem mnAddPages_tii_of {P : NodeType → String → Prop}
    (doc : WorkspaceDocumentation) (st : BuildState)
    (hP : ∀ id, P .page id) (hd : P .viewsSection "")
    (h : TypedIdInv P st) : TypedIdInv P (mnAddPages doc st) := by
  rw [mnAddPages]
  refine List.foldlRecOn doc.pages _ st h ?_
  intro st' hst' page hpage
  dsimp only
  split
  · exact hst'
  · exact tii_mapSet (tii_pushAll (tii_newNode hst' (hP _) hd) _) _ _

theorem treeAddPages_tii_of {P : NodeType → String → Prop}
    (doc : WorkspaceDocumentation) (st : BuildState)
    (hP : ∀ id, P .page id) (hd : P .viewsSection "")
    (h : TypedIdInv P st) : TypedIdInv P (treeAddPages doc st) := by
  rw [treeAddPages]
  refine List.foldlRecOn doc.pages _ st h ?_
  intro st' hst' page hpage
  dsimp only
  exact tii_mapSet (tii_pushAll (tii_newNode hst' (hP _) hd) _) _ _

theorem mnProcessDs_secFree (cfg : MNConfig) (doc : WorkspaceDocumentation)
    (dbIdx : Nat) (dbId : String) (st : BuildState) (ds : DataSource)
    (hguard : ¬((cfg.requireSchema = true → doc.includeSchema = true)
      ∧ ds.properties.length > 0))
    (h : TypedIdInv secFree st) :
    TypedIdInv secFree (mnProcessDs cfg doc dbIdx dbId st ds).1 := by
  simp only [mnProcessDs, if_neg hguard]
  rcases hdp : ds.pages with _ | dsPages <;> simp only [] <;> try split
  all_goals
    try (refine tii_mapSet (tii_pushChild (tii_newNode h ?_ ?_) _ _) _ _ <;> simp [secFree])
  refine List.foldlRecOn _ _ _ ?_ ?_
  · refine tii_mapSet (tii_pushChild (tii_newNode
      (tii_mapSet (tii_pushChild (tii_newNode h ?_ ?_) _ _) _ _) ?_ ?_) _ _) _ _ <;>
      simp [secFree]
  · intro st2 h2 dsPage hdsPage
    dsimp only
    refine tii_pushAll (tii_mapSet (tii_pushChild (tii_newNode h2 ?_ ?_) _ _) _ _) _ <;>
      simp [secFree]

theorem mnProcessDb_secFree_schemaFalse (cfg : MNConfig) (doc : WorkspaceDocumentation)
    (st : BuildState) (database : DatabaseInfo)
    (hreq : cfg.requireSchema = true) (hs : doc.includeSchema = false)
    (h : TypedIdInv secFree st) :
    TypedIdInv secFree (mnProcessDb cfg doc st database).1 := by
  have hguard : ¬((cfg.requireSchema = true → doc.includeSchema = true)
      ∧ database.properties.length > 0) := by
    rintro ⟨himp, -⟩
    rw [himp hreq] at hs
    cases hs
  simp only [mnProcessDb]
  split
  · dsimp only
    refine @List.foldlRecOn _ _
      (fun (acc : BuildState × List DataSource) => TypedIdInv secFree acc.1) _ _ _ ?_ ?_
    · refine tii_mapSet (tii_pushAll (tii_newNode h ?_ ?_) _) _ _ <;> simp [secFree]
    · intro acc hacc ds hds
      dsimp only
      refine mnProcessDs_secFree cfg doc _ _ _ _ ?_ hacc
      rintro ⟨himp, -⟩
      rw [himp hreq] at hs
      cases hs
  all_goals
    refine tii_mapSet (tii_pushAll (tii_newNode h ?_ ?_) _) _ _ <;> simp [secFree]

theorem mnProcessDb_secFree_inv (cfg : MNConfig) (doc : WorkspaceDocumentation)
    (st : BuildState) (database : DatabaseInfo)
    (hprops : database.properties = []) (hdss : database.dataSources = [])
    (h : TypedIdInv secFree st) :
    TypedIdInv secFree (mnProcessDb cfg doc st database).1 := by
  simp only [mnProcessDb, hprops, hdss]
  simp only [List.length_nil, gt_iff_lt, Nat.lt_irrefl, if_false, and_false]
  refine tii_mapSet (tii_pushAll (tii_newNode h ?_ ?_) _) _ _ <;> simp [secFree]

theorem treeProcessDb_secFree_inv (doc : WorkspaceDocumentation)
    (st : BuildState) (database : DatabaseInfo)
    (hprops : database.properties = []) (hdss : database.dataSources = [])
    (h : TypedIdInv secFree st) :
    TypedIdInv secFree (treeProcessDb doc st database).1 := by
  simp only [treeProcessDb, hprops, hdss]
  simp only [List.length_nil, gt_iff_lt, Nat.lt_irrefl, if_false]
  split
  · refine tii_mapSet (tii_pushChild (tii_newNode
      (tii_mapSet (tii_pushAll (tii_newNode h ?_ ?_) _) _ _) ?_ ?_) _ _) _ _ <;>
      simp [secFree]
  · refine tii_mapSet (tii_pushAll (tii_newNode h ?_ ?_) _) _ _ <;> simp [secFree]

end NotionDoc

namespace NotionDoc

theorem mnCreate_secFree_schemaFalse (cfg : MNConfig) (doc : WorkspaceDocumentation)
    (hreq : cfg.requireSchema = true) (hs : doc.includeSchema = false) :
    TypedIdInv secFree (mnCreate cfg doc).1 := by
  simp only [mnCreate]
  have hstart : TypedIdInv secFree (mnAddPages doc BuildState.empty) := by
    refine mnAddPages_tii_of doc BuildState.empty ?_ ?_ (tii_empty ?_) <;> simp [secFree]
  have hfold : ∀ (l : List DatabaseInfo) (acc : BuildState × List DatabaseInfo),
      TypedIdInv secFree acc.1 →
      TypedIdInv secFree ((l.foldl (fun (acc : BuildState × List DatabaseInfo) database =>
        ((mnProcessDb cfg doc acc.1 database).1,
          acc.2 ++ [(mnProcessDb cfg doc acc.1 database).2])) acc).1) := by
    intro l
    induction l with
    | nil => intro acc hacc; exact hacc
    | cons database l ih =>
      intro acc hacc
      rw [List.foldl_cons]
      exact ih _ (mnProcessDb_secFree_schemaFalse cfg doc _ _ hreq hs hacc)
  exact hfold doc.databases (mnAddPages doc BuildState.empty, []) hstart

theorem mnCreate_secFree_inv (cfg : MNConfig) (doc : WorkspaceDocumentation)
    (hinv : ∀ db ∈ doc.databases, db.properties = [] ∧ db.dataSources = []) :
    TypedIdInv secFree (mnCreate cfg doc).1 := by
  simp only [mnCreate]
  have hstart : TypedIdInv secFree (mnAddPages doc BuildState.empty) := by
    refine mnAddPages_tii_of doc BuildState.empty ?_ ?_ (tii_empty ?_) <;> simp [secFree]
  refine @List.foldlRecOn _ _
    (fun (acc : BuildState × List DatabaseInfo) => TypedIdInv secFree acc.1)
    doc.databases _ (mnAddPages doc BuildState.empty, []) hstart ?_
  intro acc hacc database hdb
  dsimp only
  exact mnProcessDb_secFree_inv cfg doc _ _ (hinv database hdb).1 (hinv database hdb).2 hacc

theorem treeCreate_secFree_inv (doc : WorkspaceDocumentation)
    (hinv : ∀ db ∈ doc.databases, db.properties = [] ∧ db.dataSources = []) :
    TypedIdInv secFree (treeCreate doc).1 := by
  simp only [treeCreate]
  have hstart : TypedIdInv secFree (treeAddPages doc BuildState.empty) := by
    refine treeAddPages_tii_of doc BuildState.empty ?_ ?_ (tii_empty ?_) <;> simp [secFree]
  refine @List.foldlRecOn _ _
    (fun (acc : BuildState × List DatabaseInfo) => TypedIdInv secFree acc.1)
    doc.databases _ (treeAddPages doc BuildState.empty, []) hstart ?_
  intro acc hacc database hdb
  dsimp only
  exact treeProcessDb_secFree_inv doc _ _ (hinv database hdb).1 (hinv database hdb).2 hacc

/-- C8, corrected.  The Markdown and tree summaries always print the
literal `not included` placeholder when `includeSchema = false`, and the
Markdown/Numbered builder gated on `includeSchema` builds no
properties-section node at all; but the Tree (and Numbered) builders
have no `includeSchema` gate, so the section-absence part of the claim
only holds for aggregates satisfying the data-model invariant that
`includeSchema = false` forces empty `properties`/`dataSources` lists. -/
theorem includeSchema_false_placeholders_and_sections (cfg : MNConfig)
    (doc : WorkspaceDocumentation) (env : String → String) :
    (doc.includeSchema = false →
      appearsIn "not included" (markdownFormat env doc)
      ∧ appearsIn "not included" (treeFormat env doc))
    ∧ (cfg.requireSchema = true → doc.includeSchema = false →
      ∀ i, (getNode (mnBuild cfg doc).state i).type ≠ .propertiesSection)
    ∧ ((∀ db ∈ doc.databases, db.properties = [] ∧ db.dataSources = []) →
      (∀ i, (getNode (mnBuild cfg doc).state i).type ≠ .propertiesSection)
      ∧ (∀ i, (getNode (treeBuild doc).state i).type ≠ .propertiesSection)) := by
  have hmnState : (mnBuild cfg doc).state =
      ((mnCreate cfg doc).1.allNodes.foldl mnLinkStep ((mnCreate cfg doc).1, [])).1 := by
    simp [mnBuild]
  have htreeState : ∀ i, (getNode (treeBuild doc).state i).type =
      (getNode (treeCreate doc).1 i).type := by
    intro i
    simp only [treeBuild]
    rw [show ∀ (st : BuildState) (l : List Nat),
        (sortTreeNodesF ((st.nodes.length) + 1) st l) =
          ((sortTreeNodesF ((st.nodes.length) + 1) st l).1,
           (sortTreeNodesF ((st.nodes.length) + 1) st l).2) from fun _ _ => rfl]
    rw [show ((treeCreate doc).1.allNodes.foldl treeLinkStep ((treeCreate doc).1, [])) =
        (((treeCreate doc).1.allNodes.foldl treeLinkStep ((treeCreate doc).1, [])).1,
         ((treeCreate doc).1.allNodes.foldl treeLinkStep ((treeCreate doc).1, [])).2) from rfl]
    rw [sortTreeNodesF_fst_type, treeLink_fold_fst_type]
  refine ⟨?_, ?_, ?_⟩
  · intro hs
    constructor
    · rw [markdownFormat]
      refine appearsIn_of_appearsIn_mem (a := "- **Total Properties:** "
        ++ (if doc.includeSchema then toString doc.summary.totalProperties
            else "not included")) ?_ ?_
      · simp
      · rw [hs]
        exact ⟨"- **Total Properties:** ", "", by simp⟩
    · rw [treeFormat]
      refine appearsIn_of_appearsIn_mem (a := "Properties: "
        ++ (if doc.includeSchema then toString doc.summary.totalProperties
            else "not included")) ?_ ?_
      · simp
      · rw [hs]
        exact ⟨"Properties: ", "", by simp⟩
  · intro hreq hs i
    rw [hmnState, mnLink_fold_fst_type]
    exact mnCreate_secFree_schemaFalse cfg doc hreq hs i
  · intro hinv
    constructor
    · intro i
      rw [hmnState, mnLink_fold_fst_type]
      exact mnCreate_secFree_inv cfg doc hinv i
    · intro i
      rw [htreeState]
      exact treeCreate_secFree_inv doc hinv i

/-- C8, counterexample.  With `includeSchema = false` but a legacy
property list still present, the Tree builder creates a
properties-section node and places it in the forest below the database
root. -/
theorem tree_builds_section_despite_includeSchema_false :
    docLegacySchemaFalse.includeSchema = false
    ∧ (getNode (treeBuild docLegacySchemaFalse).state 1).type = .propertiesSection
    ∧ InForest (treeBuild docLegacySchemaFalse) 1 := by
  refine ⟨rfl, by decide, ?_⟩
  have hroot : InForest (treeBuild docLegacySchemaFalse) 0 :=
    InForest.root (by decide)
  exact hroot.child (by decide)

/-- C8, witness for the amended claim: placeholders and the
schema-gated Markdown builder at a schema-less legacy aggregate, and
section absence for every builder on an aggregate satisfying the
data-model invariant. -/
theorem includeSchema_false_placeholders_witness :
    (appearsIn "not included" (markdownFormat envId docLegacySchemaFalse)
      ∧ appearsIn "not included" (treeFormat envId docLegacySchemaFalse))
    ∧ (∀ i, (getNode (mnBuild markdownConfig docLegacySchemaFalse).state i).type
        ≠ .propertiesSection)
    ∧ (∀ i, (getNode (mnBuild markdownConfig docEmpty).state i).type
        ≠ .propertiesSection)
    ∧ (∀ i, (getNode (treeBuild docEmpty).state i).type ≠ .propertiesSection) := by
  refine ⟨(includeSchema_false_placeholders_and_sections markdownConfig
      docLegacySchemaFalse envId).1 rfl,
    (includeSchema_false_placeholders_and_sections markdownConfig
      docLegacySchemaFalse envId).2.1 rfl rfl,
    ((includeSchema_false_placeholders_and_sections markdownConfig
      docEmpty envId).2.2 (by simp [docEmpty])).1,
    ((includeSchema_false_placeholders_and_sections markdownConfig
      docEmpty envId).2.2 (by simp [docEmpty])).2⟩

end NotionDoc

namespace NotionDoc

/-- Relation between a base state and a later state of the same builder
run: the store only grows, the id/type/title of existing nodes never
change, and the child lists of existing nodes only gain new entries that
are in range and are not property nodes. -/
def StepOK (st0 st' : BuildState) : Prop :=
  st0.nodes.length ≤ st'.nodes.length
  ∧ (∀ i, i < st0.nodes.length →
      (getNode st' i).id = (getNode st0 i).id
      ∧ (getNode st' i).type = (getNode st0 i).type
      ∧ (getNode st' i).title = (getNode st0 i).title)
  ∧ (∀ i, i < st0.nodes.length →
      ∃ ext, (getNode st' i).children = (getNode st0 i).children ++ ext
        ∧ ∀ c ∈ ext, c < st'.nodes.length ∧ (getNode st' c).type ≠ .property)

theorem StepOK_refl (st : BuildState) : StepOK st st :=
  ⟨Nat.le_refl _, fun _ _ => ⟨rfl, rfl, rfl⟩,
   fun i _ => ⟨[], by simp, by simp⟩⟩

theorem StepOK_trans {st0 st1 st2 : BuildState}
    (h01 : StepOK st0 st1) (h12 : StepOK st1 st2) : StepOK st0 st2 := by
  obtain ⟨hl1, hf1, hc1⟩ := h01
  obtain ⟨hl2, hf2, hc2⟩ := h12
  refine ⟨Nat.le_trans hl1 hl2, ?_, ?_⟩
  · intro i hi
    obtain ⟨ha, hb, hc⟩ := hf1 i hi
    obtain ⟨ha', hb', hc'⟩ := hf2 i (Nat.lt_of_lt_of_le hi hl1)
    exact ⟨ha'.trans ha, hb'.trans hb, hc'.trans hc⟩
  · intro i hi
    obtain ⟨e1, he1, hp1⟩ := hc1 i hi
    obtain ⟨e2, he2, hp2⟩ := hc2 i (Nat.lt_of_lt_of_le hi hl1)
    refine ⟨e1 ++ e2, by rw [he2, he1, List.append_assoc], ?_⟩
    intro c hc
    rcases List.mem_append.mp hc with hc | hc
    · obtain ⟨hcl, hct⟩ := hp1 c hc
      obtain ⟨-, hb', -⟩ := hf2 c hcl
      exact ⟨Nat.lt_of_lt_of_le hcl hl2, hb' ▸ hct⟩
    · exact hp2 c hc

theorem StepOK_mapSet {st0 st' : BuildState} (h : StepOK st0 st')
    (k : String) (v : Nat) : StepOK st0 (mapSet st' k v) := h

theorem StepOK_pushAll {st0 st' : BuildState} (h : StepOK st0 st')
    (j : Nat) : StepOK st0 (pushAll st' j) := h

theorem StepOK_newNode {st0 st' : BuildState} (h : StepOK st0 st')
    (n : TreeNode) : StepOK st0 ((newNode st' n).2) := by
  obtain ⟨hl, hf, hc⟩ := h
  refine ⟨by rw [length_newNode]; omega, ?_, ?_⟩
  · intro i hi
    rw [getNode_newNode_lt n (Nat.lt_of_lt_of_le hi hl)]
    exact hf i hi
  · intro i hi
    obtain ⟨ext, he, hp⟩ := hc i hi
    refine ⟨ext, ?_, ?_⟩
    · rw [getNode_newNode_lt n (Nat.lt_of_lt_of_le hi hl)]
      exact he
    · intro c hcm
      obtain ⟨hcl, hct⟩ := hp c hcm
      rw [getNode_newNode_lt n hcl, length_newNode]
      exact ⟨by omega, hct⟩

theorem StepOK_pushChild_ge {st0 st' : BuildState} (h : StepOK st0 st')
    {p : Nat} (c : Nat) (hp : st0.nodes.length ≤ p) :
    StepOK st0 (pushChild st' p c) := by
  obtain ⟨hl, hf, hc⟩ := h
  refine ⟨by rw [length_pushChild]; exact hl, ?_, ?_⟩
  · intro i hi
    rw [getNode_pushChild_id, getNode_pushChild_type, getNode_pushChild_title]
    exact hf i hi
  · intro i hi
    obtain ⟨ext, he, hpp⟩ := hc i hi
    have hipne : i ≠ p := by omega
    refine ⟨ext, ?_, ?_⟩
    · rw [getNode_pushChild_ne c hipne]
      exact he
    · intro c' hcm
      obtain ⟨hcl, hct⟩ := hpp c' hcm
      rw [getNode_pushChild_type, length_pushChild]
      exact ⟨hcl, hct⟩

theorem StepOK_pushChild_ty {st0 st' : BuildState} (h : StepOK st0 st')
    {c : Nat} (p : Nat) (hcl : c < st'.nodes.length)
    (hct : (getNode st' c).type ≠ .property) :
    StepOK st0 (pushChild st' p c) := by
  obtain ⟨hl, hf, hc⟩ := h
  refine ⟨by rw [length_pushChild]; exact hl, ?_, ?_⟩
  · intro i hi
    rw [getNode_pushChild_id, getNode_pushChild_type, getNode_pushChild_title]
    exact hf i hi
  · intro i hi
    obtain ⟨ext, he, hpp⟩ := hc i hi
    by_cases hip : i = p
    · subst hip
      by_cases hien : i < st'.nodes.length
      · refine ⟨ext ++ [c], ?_, ?_⟩
        · rw [getNode_pushChild_self c hien]
          simp [he]
        · intro c' hcm
          rw [getNode_pushChild_type, length_pushChild]
          rcases List.mem_append.mp hcm with hcm | hcm
          · exact hpp c' hcm
          · simp only [List.mem_singleton] at hcm
            subst hcm
            exact ⟨hcl, hct⟩
      · rw [pushChild_of_le c (Nat.le_of_not_lt hien)]
        refine ⟨ext, he, ?_⟩
        intro c' hcm
        exact hpp c' hcm
    · refine ⟨ext, ?_, ?_⟩
      · rw [getNode_pushChild_ne c hip]
        exact he
      · intro c' hcm
        obtain ⟨hcl', hct'⟩ := hpp c' hcm
        rw [getNode_pushChild_type, length_pushChild]
        exact ⟨hcl', hct'⟩

theorem StepOK_setParent {st0 st' : BuildState} (h : StepOK st0 st')
    (j : Nat) (pid : Option String) : StepOK st0 (setParent st' j pid) := by
  obtain ⟨hl, hf, hc⟩ := h
  refine ⟨by rw [length_setParent]; exact hl, ?_, ?_⟩
  · intro i hi
    rw [getNode_setParent_id, getNode_setParent_type, getNode_setParent_title]
    exact hf i hi
  · intro i hi
    obtain ⟨ext, he, hpp⟩ := hc i hi
    refine ⟨ext, ?_, ?_⟩
    · rw [getNode_setParent_children]
      exact he
    · intro c' hcm
      obtain ⟨hcl', hct'⟩ := hpp c' hcm
      rw [getNode_setParent_type, length_setParent]
      exact ⟨hcl', hct'⟩

end NotionDoc

namespace NotionDoc

theorem newNode_fst (st : BuildState) (n : TreeNode) :
    (newNode st n).1 = st.nodes.length := rfl

theorem getNode_newNode_fst (st : BuildState) (n : TreeNode) :
    getNode ((newNode st n).2) ((newNode st n).1) = n :=
  getNode_newNode_self st n

theorem newNode_fst_lt (st : BuildState) (n : TreeNode) :
    (newNode st n).1 < ((newNode st n).2).nodes.length := by
  rw [newNode_fst, length_newNode]
  omega

theorem length_mapSet (st : BuildState) (k : String) (v : Nat) :
    (mapSet st k v).nodes.length = st.nodes.length := rfl

theorem allNodes_newNode (st : BuildState) (n : TreeNode) :
    ((newNode st n).2).allNodes = st.allNodes := rfl

/-- A predicate preserved by every step of a fold is preserved by the
whole fold. -/
theorem foldl_pres {σ α : Type _} (Q : σ → Prop) (f : σ → α → σ)
    (hf : ∀ s x, Q s → Q (f s x)) :
    ∀ (l : List α) (s : σ), Q s → Q (l.foldl f s) := by
  intro l
  induction l with
  | nil => intro s hs; exact hs
  | cons x t ih =>
    intro s hs
    rw [List.foldl_cons]
    exact ih _ (hf s x hs)

/-- Fold induction tracking the processed prefix of the list. -/
theorem foldl_inv {σ α : Type _} (Q : σ → List α → Prop) (f : σ → α → σ)
    (hf : ∀ s x pre, Q s pre → Q (f s x) (pre ++ [x])) :
    ∀ (l pre : List α) (s : σ), Q s pre → Q (l.foldl f s) (pre ++ l) := by
  intro l
  induction l with
  | nil => intro pre s h; simpa using h
  | cons x t ih =>
    intro pre s h
    rw [List.foldl_cons]
    have h2 := ih (pre ++ [x]) (f s x) (hf s x pre h)
    simpa [List.append_assoc] using h2

/-- Mounting a fresh non-property node under any parent and registering it
in the node map keeps the old portion of the store intact. -/
theorem StepOK_mount {st0 s : BuildState} (hs : StepOK st0 s) (n : TreeNode)
    (hn : n.type ≠ .property) (p : Nat) (k : String) :
    StepOK st0 (mapSet (pushChild (newNode s n).2 p (newNode s n).1) k (newNode s n).1) :=
  StepOK_mapSet (StepOK_pushChild_ty (StepOK_newNode hs n) p (newNode_fst_lt s n)
    (by rw [getNode_newNode_fst]; exact hn)) k _

/-- Attaching a fresh node to a node that did not yet exist in the
reference state keeps the old portion of the store intact. -/
theorem StepOK_attach {st0 X s : BuildState} (hX : StepOK st0 X)
    (hs : StepOK st0 s) (m n : TreeNode) (k : String) :
    StepOK st0 (mapSet (pushChild (newNode s n).2 (newNode X m).1 (newNode s n).1)
      k (newNode s n).1) :=
  StepOK_mapSet (StepOK_pushChild_ge (StepOK_newNode hs n) _ hX.1) k _

/-- Invariant of the `allNodes` array during a Markdown/Numbered builder
run: every registered index is in range and never a property node. -/
def ANI (st : BuildState) : Prop :=
  ∀ j ∈ st.allNodes, j < st.nodes.length ∧ (getNode st j).type ≠ .property

theorem ANI_empty : ANI BuildState.empty := by
  intro j hj
  simp [BuildState.empty] at hj

theorem ANI_mapSet {st : BuildState} (h : ANI st) (k : String) (v : Nat) :
    ANI (mapSet st k v) := h

theorem ANI_newNode {st : BuildState} (h : ANI st) (n : TreeNode) :
    ANI ((newNode st n).2) := by
  intro j hj
  rw [allNodes_newNode] at hj
  obtain ⟨hl, ht⟩ := h j hj
  rw [length_newNode, getNode_newNode_lt n hl]
  exact ⟨by omega, ht⟩

theorem ANI_pushChild {st : BuildState} (h : ANI st) (p c : Nat) :
    ANI (pushChild st p c) := by
  intro j hj
  rw [allNodes_pushChild] at hj
  obtain ⟨hl, ht⟩ := h j hj
  rw [length_pushChild, getNode_pushChild_type]
  exact ⟨hl, ht⟩

theorem ANI_setParent {st : BuildState} (h : ANI st) (j : Nat) (pid : Option String) :
    ANI (setParent st j pid) := by
  intro i hi
  rw [allNodes_setParent] at hi
  obtain ⟨hl, ht⟩ := h i hi
  rw [length_setParent, getNode_setParent_type]
  exact ⟨hl, ht⟩

/-- Allocating a fresh non-property node and registering it both in
`allNodes` and in the node map preserves the `allNodes` invariant. -/
theorem ANI_alloc {st : BuildState} (h : ANI st) (n : TreeNode)
    (hn : n.type ≠ .property) (k : String) :
    ANI (mapSet (pushAll (newNode st n).2 (newNode st n).1) k (newNode st n).1) := by
  refine ANI_mapSet ?_ k _
  intro j hj
  rw [allNodes_pushAll, allNodes_newNode] at hj
  rw [length_pushAll, getNode_pushAll, length_newNode]
  rcases List.mem_append.mp hj with hj | hj
  · obtain ⟨hl, ht⟩ := h j hj
    rw [getNode_newNode_lt n hl]
    exact ⟨by omega, ht⟩
  · simp only [List.mem_singleton] at hj
    subst hj
    rw [getNode_newNode_fst, newNode_fst]
    exact ⟨by omega, hn⟩

/-- Allocating a fresh non-property node, attaching it to a parent and
registering it preserves the `allNodes` invariant. -/
theorem ANI_allocChild {st : BuildState} (h : ANI st) (n : TreeNode)
    (hn : n.type ≠ .property) (p : Nat) (k : String) :
    ANI (pushAll (mapSet (pushChild (newNode st n).2 p (newNode st n).1) k
      (newNode st n).1) (newNode st n).1) := by
  intro j hj
  rw [allNodes_pushAll, allNodes_mapSet, allNodes_pushChild, allNodes_newNode] at hj
  rw [length_pushAll, getNode_pushAll, getNode_mapSet, length_mapSet,
    length_pushChild, getNode_pushChild_type, length_newNode]
  rcases List.mem_append.mp hj with hj | hj
  · obtain ⟨hl, ht⟩ := h j hj
    rw [getNode_newNode_lt n hl]
    exact ⟨by omega, ht⟩
  · simp only [List.mem_singleton] at hj
    subst hj
    rw [getNode_newNode_fst, newNode_fst]
    exact ⟨by omega, hn⟩

end NotionDoc

namespace NotionDoc

/-- First phase of the data-source loop body: data-source node creation,
attachment under the database node and registration. -/
def mnDsBase (dbIdx : Nat) (dbId : String) (st : BuildState) (ds : DataSource) :
    BuildState × Nat :=
  let dsNode : TreeNode :=
    { id := ds.id, title := jsOr ds.title ds.name ++ " data source",
      type := .dataSource, children := [], parentId := some dbId }
  let (dsIdx, st) := newNode st dsNode
  (mapSet (pushChild st dbIdx dsIdx) ds.id dsIdx, dsIdx)

/-- Properties phase of the data-source loop body: the optional
properties section and its property children. -/
def mnDsProps (cfg : MNConfig) (doc : WorkspaceDocumentation) (ds : DataSource)
    (dsIdx : Nat) (st : BuildState) : BuildState :=
  if (cfg.requireSchema = true → doc.includeSchema = true) ∧ ds.properties.length > 0 then
    let secId := ds.id ++ "-properties"
    let secNode : TreeNode :=
      { id := secId, title := "Properties", type := .propertiesSection,
        children := [], parentId := some ds.id }
    let (secIdx, st) := newNode st secNode
    let st := mapSet (pushChild st dsIdx secIdx) secId secIdx
    ((copyReverse ds.properties).1).foldl (fun st property =>
      let propNode : TreeNode :=
        { id := ds.id ++ "-" ++ property.id,
          title := cfg.fmtProp property doc.databases, type := .property,
          children := [], parentId := some secId }
      let (pIdx, st) := newNode st propNode
      mapSet (pushChild st secIdx pIdx) (ds.id ++ "-" ++ property.id) pIdx) st
  else st

/-- Pages phase of the data-source loop body: the optional pages section
and its item-page children. -/
def mnDsPages (doc : WorkspaceDocumentation) (ds : DataSource) (dsIdx : Nat)
    (st : BuildState) : BuildState :=
  match ds.pages with
  | some dsPages =>
    if doc.includeItems = true ∧ dsPages.length > 0 then
      let pagesId := ds.id ++ "-pages"
      let pagesNode : TreeNode :=
        { id := pagesId, title := "Data source pages", type := .pagesSection,
          children := [], parentId := some ds.id }
      let (pagesIdx, st) := newNode st pagesNode
      let st := mapSet (pushChild st dsIdx pagesIdx) pagesId pagesIdx
      dsPages.foldl (fun st dsPage =>
        let pgNode : TreeNode :=
          { id := dsPage.id, title := jsOr dsPage.title "Untitled Page" ++ " page",
            type := .page, children := [], parentId := some pagesId }
        let (pgIdx, st) := newNode st pgNode
        pushAll (mapSet (pushChild st pagesIdx pgIdx) dsPage.id pgIdx) pgIdx) st
    else st
  | none => st

/-- The state component of the data-source loop body is the composition
of its three phases. -/
theorem mnProcessDs_fst (cfg : MNConfig) (doc : WorkspaceDocumentation)
    (dbIdx : Nat) (dbId : String) (st : BuildState) (ds : DataSource) :
    (mnProcessDs cfg doc dbIdx dbId st ds).1 =
      mnDsPages doc ds (mnDsBase dbIdx dbId st ds).2
        (mnDsProps cfg doc ds (mnDsBase dbIdx dbId st ds).2
          (mnDsBase dbIdx dbId st ds).1) := rfl

end NotionDoc

namespace NotionDoc

theorem mnDsBase_snd (dbIdx : Nat) (dbId : String) (st : BuildState) (ds : DataSource) :
    (mnDsBase dbIdx dbId st ds).2 = st.nodes.length := rfl

theorem mnDsBase_StepOK (dbIdx : Nat) (dbId : String) (st : BuildState)
    (ds : DataSource) : StepOK st (mnDsBase dbIdx dbId st ds).1 :=
  StepOK_mount (StepOK_refl st) _ (by simp) dbIdx ds.id

theorem mnDsProps_StepOK (cfg : MNConfig) (doc : WorkspaceDocumentation)
    (ds : DataSource) (dsIdx : Nat) (st : BuildState) :
    StepOK st (mnDsProps cfg doc ds dsIdx st) := by
  simp only [mnDsProps]
  split
  · refine foldl_pres (StepOK st) _ ?_ _ _
      (StepOK_mount (StepOK_refl st) _ (by simp) dsIdx _)
    intro s x hs
    exact StepOK_attach (StepOK_refl st) hs _ _ _
  · exact StepOK_refl _

theorem mnDsPages_StepOK (doc : WorkspaceDocumentation) (ds : DataSource)
    (dsIdx : Nat) (st : BuildState) : StepOK st (mnDsPages doc ds dsIdx st) := by
  simp only [mnDsPages]
  split
  · split
    · refine foldl_pres (StepOK st) _ ?_ _ _
        (StepOK_mount (StepOK_refl st) _ (by simp) dsIdx _)
      intro s x hs
      exact StepOK_pushAll (StepOK_attach (StepOK_refl st) hs _ _ _) _
    · exact StepOK_refl _
  · exact StepOK_refl _

theorem mnProcessDs_StepOK (cfg : MNConfig) (doc : WorkspaceDocumentation)
    (dbIdx : Nat) (dbId : String) (st : BuildState) (ds : DataSource) :
    StepOK st (mnProcessDs cfg doc dbIdx dbId st ds).1 := by
  rw [mnProcessDs_fst]
  exact StepOK_trans (StepOK_trans (mnDsBase_StepOK dbIdx dbId st ds)
    (mnDsProps_StepOK cfg doc ds _ _)) (mnDsPages_StepOK doc ds _ _)

theorem mnDsBase_ANI {st : BuildState} (h : ANI st) (dbIdx : Nat) (dbId : String)
    (ds : DataSource) : ANI (mnDsBase dbIdx dbId st ds).1 :=
  ANI_mapSet (ANI_pushChild (ANI_newNode h _) _ _) _ _

theorem mnDsProps_ANI (cfg : MNConfig) (doc : WorkspaceDocumentation)
    (ds : DataSource) (dsIdx : Nat) {st : BuildState} (h : ANI st) :
    ANI (mnDsProps cfg doc ds dsIdx st) := by
  simp only [mnDsProps]
  split
  · refine foldl_pres ANI _ ?_ _ _
      (ANI_mapSet (ANI_pushChild (ANI_newNode h _) _ _) _ _)
    intro s x hs
    exact ANI_mapSet (ANI_pushChild (ANI_newNode hs _) _ _) _ _
  · exact h

theorem mnDsPages_ANI (doc : WorkspaceDocumentation) (ds : DataSource)
    (dsIdx : Nat) {st : BuildState} (h : ANI st) :
    ANI (mnDsPages doc ds dsIdx st) := by
  simp only [mnDsPages]
  split
  · split
    · refine foldl_pres ANI _ ?_ _ _
        (ANI_mapSet (ANI_pushChild (ANI_newNode h _) _ _) _ _)
      intro s x hs
      exact ANI_allocChild hs _ (by simp) _ _
    · exact h
  · exact h

theorem mnProcessDs_ANI (cfg : MNConfig) (doc : WorkspaceDocumentation)
    (dbIdx : Nat) (dbId : String) {st : BuildState} (h : ANI st) (ds : DataSource) :
    ANI (mnProcessDs cfg doc dbIdx dbId st ds).1 := by
  rw [mnProcessDs_fst]
  exact mnDsPages_ANI doc ds _ (mnDsProps_ANI cfg doc ds _ (mnDsBase_ANI h dbIdx dbId ds))

end NotionDoc

namespace NotionDoc

/-- First phase of the database loop body: database node creation,
`allNodes` registration and node-map registration. -/
def mnDbBase (st : BuildState) (database : DatabaseInfo) : BuildState × Nat :=
  let dbNode : TreeNode :=
    { id := database.id, title := jsOr database.title "Untitled Database" ++ " database",
      type := .database, children := [], parentId := database.parent.id }
  let (dbIdx, st) := newNode st dbNode
  (mapSet (pushAll st dbIdx) database.id dbIdx, dbIdx)

/-- Data-source phase of the database loop body: the fold of the
data-source loop over all data sources of the database. -/
def mnDbDs (cfg : MNConfig) (doc : WorkspaceDocumentation)
    (database : DatabaseInfo) (dbIdx : Nat) (st : BuildState) : BuildState :=
  (database.dataSources.foldl
    (fun (acc : BuildState × List DataSource) ds =>
      let (st, ds') := mnProcessDs cfg doc dbIdx database.id acc.1 ds
      (st, acc.2 ++ [ds'])) (st, [])).1

/-- Legacy properties phase of the database loop body. -/
def mnDbLegacy (cfg : MNConfig) (doc : WorkspaceDocumentation)
    (database : DatabaseInfo) (dbIdx : Nat) (st : BuildState) : BuildState :=
  let secId := database.id ++ "-properties"
  let secNode : TreeNode :=
    { id := secId, title := cfg.legacyPropsTitle, type := .propertiesSection,
      children := [], parentId := some database.id }
  let (secIdx, st) := newNode st secNode
  let st := mapSet (pushChild st dbIdx secIdx) secId secIdx
  ((copyReverse database.properties).1).foldl (fun st property =>
    let propNode : TreeNode :=
      { id := property.id, title := cfg.fmtProp property doc.databases,
        type := .property, children := [], parentId := some secId }
    let (pIdx, st) := newNode st propNode
    mapSet (pushChild st secIdx pIdx) property.id pIdx) st

/-- Legacy items phase of the database loop body. -/
def mnDbItems (doc : WorkspaceDocumentation) (database : DatabaseInfo)
    (dbIdx : Nat) (st : BuildState) : BuildState :=
  if doc.includeItems = true then
    let itemsId := database.id ++ "-items"
    let itemsNode : TreeNode :=
      { id := itemsId, title := "Database pages", type := .itemsSection,
        children := [], parentId := some database.id }
    let (itemsIdx, st) := newNode st itemsNode
    let st := mapSet (pushChild st dbIdx itemsIdx) itemsId itemsIdx
    (doc.pages.filter (fun p =>
        p.parent.type = "database_id" ∧ p.parent.id = some database.id)).foldl
      (fun st dbPage =>
        match mapGet st dbPage.id with
        | some eIdx => pushChild (setParent st eIdx (some itemsId)) itemsIdx eIdx
        | none => st) st
  else st

theorem mnProcessDb_fst_ds (cfg : MNConfig) (doc : WorkspaceDocumentation)
    (st : BuildState) (database : DatabaseInfo)
    (h1 : database.dataSources.length > 0) :
    (mnProcessDb cfg doc st database).1 =
      mnDbDs cfg doc database (mnDbBase st database).2 (mnDbBase st database).1 := by
  simp only [mnProcessDb, if_pos h1]
  rfl

theorem mnProcessDb_fst_legacy (cfg : MNConfig) (doc : WorkspaceDocumentation)
    (st : BuildState) (database : DatabaseInfo)
    (h1 : ¬database.dataSources.length > 0)
    (h2 : (cfg.requireSchema = true → doc.includeSchema = true)
      ∧ database.properties.length > 0) :
    (mnProcessDb cfg doc st database).1 =
      mnDbItems doc database (mnDbBase st database).2
        (mnDbLegacy cfg doc database (mnDbBase st database).2 (mnDbBase st database).1) := by
  simp only [mnProcessDb, if_neg h1, if_pos h2]
  rfl

theorem mnProcessDb_fst_plain (cfg : MNConfig) (doc : WorkspaceDocumentation)
    (st : BuildState) (database : DatabaseInfo)
    (h1 : ¬database.dataSources.length > 0)
    (h2 : ¬((cfg.requireSchema = true → doc.includeSchema = true)
      ∧ database.properties.length > 0)) :
    (mnProcessDb cfg doc st database).1 = (mnDbBase st database).1 := by
  simp only [mnProcessDb, if_neg h1, if_neg h2]
  rfl

end NotionDoc

namespace NotionDoc

theorem mnDbBase_snd (st : BuildState) (database : DatabaseInfo) :
    (mnDbBase st database).2 = st.nodes.length := rfl

theorem mnDbBase_StepOK (st : BuildState) (database : DatabaseInfo) :
    StepOK st (mnDbBase st database).1 :=
  StepOK_mapSet (StepOK_pushAll (StepOK_newNode (StepOK_refl st) _) _) _ _

theorem mnDbDs_StepOK (cfg : MNConfig) (doc : WorkspaceDocumentation)
    (database : DatabaseInfo) (dbIdx : Nat) (st : BuildState) :
    StepOK st (mnDbDs cfg doc database dbIdx st) := by
  simp only [mnDbDs]
  refine foldl_pres (fun acc : BuildState × List DataSource => StepOK st acc.1) _
    ?_ _ _ (StepOK_refl st)
  intro acc x hacc
  exact StepOK_trans hacc (mnProcessDs_StepOK cfg doc dbIdx database.id acc.1 x)

theorem mnDbLegacy_StepOK (cfg : MNConfig) (doc : WorkspaceDocumentation)
    (database : DatabaseInfo) (dbIdx : Nat) (st : BuildState) :
    StepOK st (mnDbLegacy cfg doc database dbIdx st) := by
  simp only [mnDbLegacy]
  refine foldl_pres (StepOK st) _ ?_ _ _
    (StepOK_mount (StepOK_refl st) _ (by simp) dbIdx _)
  intro s x hs
  exact StepOK_attach (StepOK_refl st) hs _ _ _

theorem mnDbItems_StepOK (doc : WorkspaceDocumentation) (database : DatabaseInfo)
    (dbIdx : Nat) (st : BuildState) : StepOK st (mnDbItems doc database dbIdx st) := by
  simp only [mnDbItems]
  split
  · refine foldl_pres (StepOK st) _ ?_ _ _
      (StepOK_mount (StepOK_refl st) _ (by simp) dbIdx _)
    intro s x hs
    split
    · exact StepOK_pushChild_ge (StepOK_setParent hs _ _) _ (Nat.le_refl _)
    · exact hs
  · exact StepOK_refl _

theorem mnProcessDb_StepOK (cfg : MNConfig) (doc : WorkspaceDocumentation)
    (st : BuildState) (database : DatabaseInfo) :
    StepOK st (mnProcessDb cfg doc st database).1 := by
  by_cases h1 : database.dataSources.length > 0
  · rw [mnProcessDb_fst_ds cfg doc st database h1]
    exact StepOK_trans (mnDbBase_StepOK st database) (mnDbDs_StepOK cfg doc database _ _)
  · by_cases h2 : (cfg.requireSchema = true → doc.includeSchema = true)
        ∧ database.properties.length > 0
    · rw [mnProcessDb_fst_legacy cfg doc st database h1 h2]
      exact StepOK_trans (StepOK_trans (mnDbBase_StepOK st database)
        (mnDbLegacy_StepOK cfg doc database _ _)) (mnDbItems_StepOK doc database _ _)
    · rw [mnProcessDb_fst_plain cfg doc st database h1 h2]
      exact mnDbBase_StepOK st database

theorem mnDbBase_ANI {st : BuildState} (h : ANI st) (database : DatabaseInfo) :
    ANI (mnDbBase st database).1 :=
  ANI_alloc h _ (by simp) _

theorem mnDbDs_ANI (cfg : MNConfig) (doc : WorkspaceDocumentation)
    (database : DatabaseInfo) (dbIdx : Nat) {st : BuildState} (h : ANI st) :
    ANI (mnDbDs cfg doc database dbIdx st) := by
  simp only [mnDbDs]
  refine foldl_pres (fun acc : BuildState × List DataSource => ANI acc.1) _ ?_ _ _ h
  intro acc x hacc
  exact mnProcessDs_ANI cfg doc dbIdx database.id hacc x

theorem mnDbLegacy_ANI (cfg : MNConfig) (doc : WorkspaceDocumentation)
    (database : DatabaseInfo) (dbIdx : Nat) {st : BuildState} (h : ANI st) :
    ANI (mnDbLegacy cfg doc database dbIdx st) := by
  simp only [mnDbLegacy]
  refine foldl_pres ANI _ ?_ _ _
    (ANI_mapSet (ANI_pushChild (ANI_newNode h _) _ _) _ _)
  intro s x hs
  exact ANI_mapSet (ANI_pushChild (ANI_newNode hs _) _ _) _ _

theorem mnDbItems_ANI (doc : WorkspaceDocumentation) (database : DatabaseInfo)
    (dbIdx : Nat) {st : BuildState} (h : ANI st) :
    ANI (mnDbItems doc database dbIdx st) := by
  simp only [mnDbItems]
  split
  · refine foldl_pres ANI _ ?_ _ _
      (ANI_mapSet (ANI_pushChild (ANI_newNode h _) _ _) _ _)
    intro s x hs
    split
    · exact ANI_pushChild (ANI_setParent hs _ _) _ _
    · exact hs
  · exact h

theorem mnProcessDb_ANI (cfg : MNConfig) (doc : WorkspaceDocumentation)
    {st : BuildState} (h : ANI st) (database : DatabaseInfo) :
    ANI (mnProcessDb cfg doc st database).1 := by
  by_cases h1 : database.dataSources.length > 0
  · rw [mnProcessDb_fst_ds cfg doc st database h1]
    exact mnDbDs_ANI cfg doc database _ (mnDbBase_ANI h database)
  · by_cases h2 : (cfg.requireSchema = true → doc.includeSchema = true)
        ∧ database.properties.length > 0
    · rw [mnProcessDb_fst_legacy cfg doc st database h1 h2]
      exact mnDbItems_ANI doc database _
        (mnDbLegacy_ANI cfg doc database _ (mnDbBase_ANI h database))
    · rw [mnProcessDb_fst_plain cfg doc st database h1 h2]
      exact mnDbBase_ANI h database

theorem mnAddPages_StepOK (doc : WorkspaceDocumentation) (st : BuildState) :
    StepOK st (mnAddPages doc st) := by
  simp only [mnAddPages]
  refine foldl_pres (StepOK st) _ ?_ _ _ (StepOK_refl st)
  intro s x hs
  split
  · exact hs
  · exact StepOK_mapSet (StepOK_pushAll (StepOK_newNode hs _) _) _ _

theorem mnAddPages_ANI (doc : WorkspaceDocumentation) {st : BuildState}
    (h : ANI st) : ANI (mnAddPages doc st) := by
  simp only [mnAddPages]
  refine foldl_pres ANI _ ?_ _ _ h
  intro s x hs
  split
  · exact hs
  · exact ANI_alloc hs _ (by simp) _

theorem mnCreate_ANI (cfg : MNConfig) (doc : WorkspaceDocumentation) :
    ANI (mnCreate cfg doc).1 := by
  simp only [mnCreate]
  refine foldl_pres (fun acc : BuildState × List DatabaseInfo => ANI acc.1) _ ?_ _ _
    (mnAddPages_ANI doc ANI_empty)
  intro acc x hacc
  exact mnProcessDb_ANI cfg doc hacc x

end NotionDoc

namespace NotionDoc

/-- Record of an established properties section: the parent node `dsIdx`
(its id, its kind `pty`), the section node `secIdx` attached below it, and
the titles `L` of the property children of the section, in order. -/
def SecProp (dsId secTitle : String) (pty : NodeType) (L : List String)
    (st : BuildState) (dsIdx secIdx : Nat) : Prop :=
  dsIdx < st.nodes.length
  ∧ secIdx < st.nodes.length
  ∧ (getNode st dsIdx).id = dsId
  ∧ (getNode st dsIdx).type = pty
  ∧ (getNode st secIdx).type = .propertiesSection
  ∧ (getNode st secIdx).title = secTitle
  ∧ secIdx ∈ (getNode st dsIdx).children
  ∧ (∀ c ∈ (getNode st secIdx).children, c < st.nodes.length)
  ∧ ((getNode st secIdx).children.filter
      (fun c => decide ((getNode st c).type = NodeType.property))).map
      (fun c => (getNode st c).title) = L

/-- An established properties section survives any extension of the store
that keeps the old nodes intact and appends only non-property children. -/
theorem SecProp_mono {dsId secTitle : String} {pty : NodeType} {L : List String}
    {st st' : BuildState} {dsIdx secIdx : Nat}
    (h : SecProp dsId secTitle pty L st dsIdx secIdx) (hs : StepOK st st') :
    SecProp dsId secTitle pty L st' dsIdx secIdx := by
  obtain ⟨q1, q2, q3, q4, q5, q6, q7, q8, q9⟩ := h
  obtain ⟨hl, hf, hc⟩ := hs
  obtain ⟨hdid, hdty, -⟩ := hf dsIdx q1
  obtain ⟨-, hsty, hstt⟩ := hf secIdx q2
  obtain ⟨extD, heD, -⟩ := hc dsIdx q1
  obtain ⟨extS, heS, hpS⟩ := hc secIdx q2
  refine ⟨Nat.lt_of_lt_of_le q1 hl, Nat.lt_of_lt_of_le q2 hl, hdid.trans q3,
    hdty.trans q4, hsty.trans q5, hstt.trans q6, ?_, ?_, ?_⟩
  · rw [heD]
    exact List.mem_append_left _ q7
  · intro c hcm
    rw [heS] at hcm
    rcases List.mem_append.mp hcm with hcm | hcm
    · exact Nat.lt_of_lt_of_le (q8 c hcm) hl
    · exact (hpS c hcm).1
  · rw [heS, List.filter_append, List.map_append]
    have hfe : extS.filter (fun c => decide ((getNode st' c).type = NodeType.property)) = [] := by
      refine List.filter_eq_nil_iff.mpr ?_
      intro c hcm
      simpa using (hpS c hcm).2
    have hfo : (getNode st secIdx).children.filter
        (fun c => decide ((getNode st' c).type = NodeType.property))
        = (getNode st secIdx).children.filter
          (fun c => decide ((getNode st c).type = NodeType.property)) := by
      refine List.filter_congr ?_
      intro c hcm
      rw [(hf c (q8 c hcm)).2.1]
    have hmo : ((getNode st secIdx).children.filter
          (fun c => decide ((getNode st c).type = NodeType.property))).map
          (fun c => (getNode st' c).title)
        = ((getNode st secIdx).children.filter
          (fun c => decide ((getNode st c).type = NodeType.property))).map
          (fun c => (getNode st c).title) := by
      refine List.map_congr_left ?_
      intro c hcm
      exact (hf c (q8 c (List.mem_of_mem_filter hcm))).2.2
    rw [hfe, hfo, hmo, q9]
    simp

end NotionDoc

namespace NotionDoc

/-- Creating a fresh, childless properties-section node under an existing
parent establishes a section record with no property children yet. -/
theorem SecProp_mount {st : BuildState} {dsIdx : Nat} (hlt : dsIdx < st.nodes.length)
    {dsId : String} {pty : NodeType} (hid : (getNode st dsIdx).id = dsId)
    (hty : (getNode st dsIdx).type = pty) (n : TreeNode)
    (hnty : n.type = .propertiesSection) (hnch : n.children = []) (k : String) :
    SecProp dsId n.title pty []
      (mapSet (pushChild (newNode st n).2 dsIdx (newNode st n).1) k (newNode st n).1)
      dsIdx st.nodes.length := by
  set ST := mapSet (pushChild (newNode st n).2 dsIdx (newNode st n).1) k
    (newNode st n).1 with hST
  have hne : st.nodes.length ≠ dsIdx := by omega
  have hlt2 : dsIdx < ((newNode st n).2).nodes.length := by
    rw [length_newNode]
    omega
  have hlen : ST.nodes.length = st.nodes.length + 1 := by
    rw [hST, length_mapSet, length_pushChild, length_newNode]
  have hds : getNode ST dsIdx
      = { getNode st dsIdx with
          children := (getNode st dsIdx).children ++ [(newNode st n).1] } := by
    rw [hST, getNode_mapSet, getNode_pushChild_self _ hlt2, getNode_newNode_lt n hlt]
  have hsc : getNode ST st.nodes.length = n := by
    rw [hST, getNode_mapSet, getNode_pushChild_ne _ hne, ← newNode_fst st n,
      getNode_newNode_fst]
  refine ⟨by omega, by omega, ?_, ?_, ?_, ?_, ?_, ?_, ?_⟩
  · rw [hds]
    exact hid
  · rw [hds]
    exact hty
  · rw [hsc]
    exact hnty
  · rw [hsc]
  · rw [hds]
    show st.nodes.length ∈ (getNode st dsIdx).children ++ [(newNode st n).1]
    rw [newNode_fst]
    exact List.mem_append_right _ (List.mem_singleton.mpr rfl)
  · intro c hcm
    rw [hsc, hnch] at hcm
    simp at hcm
  · rw [hsc, hnch]
    rfl

/-- Appending a fresh property node to an established section extends its
recorded property titles by the new title. -/
theorem SecProp_pushProp {dsId secTitle : String} {pty : NodeType} {L : List String}
    {s : BuildState} {dsIdx secIdx : Nat} (hne : dsIdx ≠ secIdx)
    (h : SecProp dsId secTitle pty L s dsIdx secIdx) (n : TreeNode)
    (hnty : n.type = .property) (k : String) :
    SecProp dsId secTitle pty (L ++ [n.title])
      (mapSet (pushChild (newNode s n).2 secIdx (newNode s n).1) k (newNode s n).1)
      dsIdx secIdx := by
  obtain ⟨q1, q2, q3, q4, q5, q6, q7, q8, q9⟩ := h
  set ST := mapSet (pushChild (newNode s n).2 secIdx (newNode s n).1) k
    (newNode s n).1 with hST
  have hne2 : (newNode s n).1 ≠ secIdx := by
    rw [newNode_fst]
    omega
  have hsec_lt : secIdx < ((newNode s n).2).nodes.length := by
    rw [length_newNode]
    omega
  have hlen : ST.nodes.length = s.nodes.length + 1 := by
    rw [hST, length_mapSet, length_pushChild, length_newNode]
  have hds : getNode ST dsIdx = getNode s dsIdx := by
    rw [hST, getNode_mapSet, getNode_pushChild_ne _ hne, getNode_newNode_lt n q1]
  have hsc : getNode ST secIdx
      = { getNode s secIdx with
          children := (getNode s secIdx).children ++ [(newNode s n).1] } := by
    rw [hST, getNode_mapSet, getNode_pushChild_self _ hsec_lt, getNode_newNode_lt n q2]
  have hpn : getNode ST (newNode s n).1 = n := by
    rw [hST, getNode_mapSet, getNode_pushChild_ne _ hne2, getNode_newNode_fst]
  have htyc : ∀ c, c < s.nodes.length → (getNode ST c).type = (getNode s c).type := by
    intro c hcl
    rw [hST, getNode_mapSet, getNode_pushChild_type, getNode_newNode_lt n hcl]
  have httl : ∀ c, c < s.nodes.length → (getNode ST c).title = (getNode s c).title := by
    intro c hcl
    rw [hST, getNode_mapSet, getNode_pushChild_title, getNode_newNode_lt n hcl]
  refine ⟨by omega, by omega, by rw [hds]; exact q3, by rw [hds]; exact q4,
    by rw [hsc]; exact q5, by rw [hsc]; exact q6, ?_, ?_, ?_⟩
  · rw [hds]
    exact q7
  · intro c hcm
    rw [hsc] at hcm
    rcases List.mem_append.mp hcm with hcm | hcm
    · have := q8 c hcm
      omega
    · simp only [List.mem_singleton] at hcm
      subst hcm
      rw [hlen, newNode_fst]
      omega
  · rw [hsc]
    have hch : ({ getNode s secIdx with
        children := (getNode s secIdx).children ++ [(newNode s n).1] } : TreeNode).children
        = (getNode s secIdx).children ++ [(newNode s n).1] := rfl
    rw [hch, List.filter_append, List.map_append]
    have hfo : (getNode s secIdx).children.filter
        (fun c => decide ((getNode ST c).type = NodeType.property))
        = (getNode s secIdx).children.filter
          (fun c => decide ((getNode s c).type = NodeType.property)) := by
      refine List.filter_congr ?_
      intro c hcm
      rw [htyc c (q8 c hcm)]
    have hmo : ((getNode s secIdx).children.filter
        (fun c => decide ((getNode s c).type = NodeType.property))).map
        (fun c => (getNode ST c).title)
        = ((getNode s secIdx).children.filter
          (fun c => decide ((getNode s c).type = NodeType.property))).map
          (fun c => (getNode s c).title) := by
      refine List.map_congr_left ?_
      intro c hcm
      exact httl c (q8 c (List.mem_of_mem_filter hcm))
    have hone : ([(newNode s n).1].filter
        (fun c => decide ((getNode ST c).type = NodeType.property)))
        = [(newNode s n).1] := by
      simp [List.filter_cons, hpn, hnty]
    rw [hfo, hmo, hone, q9]
    simp [hpn]

end NotionDoc

namespace NotionDoc

theorem mnDsBase_fst (dbIdx : Nat) (dbId : String) (st : BuildState) (ds : DataSource) :
    (mnDsBase dbIdx dbId st ds).1 =
      mapSet (pushChild (newNode st
          { id := ds.id, title := jsOr ds.title ds.name ++ " data source",
            type := .dataSource, children := [], parentId := some dbId }).2 dbIdx
          (newNode st
          { id := ds.id, title := jsOr ds.title ds.name ++ " data source",
            type := .dataSource, children := [], parentId := some dbId }).1) ds.id
        (newNode st
          { id := ds.id, title := jsOr ds.title ds.name ++ " data source",
            type := .dataSource, children := [], parentId := some dbId }).1 := rfl

theorem mnDbBase_fst (st : BuildState) (database : DatabaseInfo) :
    (mnDbBase st database).1 =
      mapSet (pushAll (newNode st
          { id := database.id,
            title := jsOr database.title "Untitled Database" ++ " database",
            type := .database, children := [], parentId := database.parent.id }).2
          (newNode st
          { id := database.id,
            title := jsOr database.title "Untitled Database" ++ " database",
            type := .database, children := [], parentId := database.parent.id }).1)
        database.id
        (newNode st
          { id := database.id,
            title := jsOr database.title "Untitled Database" ++ " database",
            type := .database, children := [], parentId := database.parent.id }).1 := rfl

/-- When the schema guard passes and the data source has properties, the
properties phase mounts a section titled Properties under the data-source
node and fills it with one property node per property, in reverse
insertion order. -/
theorem mnDsProps_SecProp (cfg : MNConfig) (doc : WorkspaceDocumentation)
    (ds : DataSource) (dsIdx : Nat) (st : BuildState)
    (hcs : cfg.requireSchema = true → doc.includeSchema = true)
    (hp : ds.properties.length > 0)
    (hlt : dsIdx < st.nodes.length)
    (hid : (getNode st dsIdx).id = ds.id)
    (hty : (getNode st dsIdx).type = .dataSource) :
    SecProp ds.id "Properties" .dataSource
      (ds.properties.reverse.map (fun p => cfg.fmtProp p doc.databases))
      (mnDsProps cfg doc ds dsIdx st) dsIdx st.nodes.length := by
  simp only [mnDsProps, if_pos (And.intro hcs hp)]
  have hne : dsIdx ≠ st.nodes.length := by omega
  refine foldl_inv
    (fun (s2 : BuildState) (pre : List DatabaseProperty) =>
      SecProp ds.id "Properties" .dataSource
        (pre.map (fun p => cfg.fmtProp p doc.databases)) s2 dsIdx st.nodes.length)
    _ ?_ _ [] _ ?_
  · intro s2 x pre hq
    simp only [List.map_append, List.map_cons, List.map_nil]
    exact SecProp_pushProp hne hq _ rfl _
  · exact SecProp_mount hlt hid hty _ rfl rfl _

/-- The legacy properties phase mounts a section titled with the
configured legacy title under the database node and fills it with one
property node per property, in reverse insertion order. -/
theorem mnDbLegacy_SecProp (cfg : MNConfig) (doc : WorkspaceDocumentation)
    (database : DatabaseInfo) (dbIdx : Nat) (st : BuildState)
    (hlt : dbIdx < st.nodes.length)
    (hid : (getNode st dbIdx).id = database.id)
    (hty : (getNode st dbIdx).type = .database) :
    SecProp database.id cfg.legacyPropsTitle .database
      (database.properties.reverse.map (fun p => cfg.fmtProp p doc.databases))
      (mnDbLegacy cfg doc database dbIdx st) dbIdx st.nodes.length := by
  simp only [mnDbLegacy]
  have hne : dbIdx ≠ st.nodes.length := by omega
  refine foldl_inv
    (fun (s2 : BuildState) (pre : List DatabaseProperty) =>
      SecProp database.id cfg.legacyPropsTitle .database
        (pre.map (fun p => cfg.fmtProp p doc.databases)) s2 dbIdx st.nodes.length)
    _ ?_ _ [] _ ?_
  · intro s2 x pre hq
    simp only [List.map_append, List.map_cons, List.map_nil]
    exact SecProp_pushProp hne hq _ rfl _
  · exact SecProp_mount hlt hid hty _ rfl rfl _

end NotionDoc

namespace NotionDoc

/-- The data-source loop body establishes the section record for its data
source when the schema guard passes and the property list is non-empty. -/
theorem mnProcessDs_SecProp (cfg : MNConfig) (doc : WorkspaceDocumentation)
    (dbIdx : Nat) (dbId : String) (st : BuildState) (ds : DataSource)
    (hcs : cfg.requireSchema = true → doc.includeSchema = true)
    (hp : ds.properties.length > 0) :
    SecProp ds.id "Properties" .dataSource
      (ds.properties.reverse.map (fun p => cfg.fmtProp p doc.databases))
      (mnProcessDs cfg doc dbIdx dbId st ds).1
      st.nodes.length (st.nodes.length + 1) := by
  rw [mnProcessDs_fst]
  have hblen : (mnDsBase dbIdx dbId st ds).1.nodes.length = st.nodes.length + 1 := by
    rw [mnDsBase_fst, length_mapSet, length_pushChild, length_newNode]
  have hbid : (getNode (mnDsBase dbIdx dbId st ds).1 st.nodes.length).id = ds.id := by
    rw [mnDsBase_fst, getNode_mapSet, getNode_pushChild_id, getNode_newNode_self]
  have hbty : (getNode (mnDsBase dbIdx dbId st ds).1 st.nodes.length).type
      = .dataSource := by
    rw [mnDsBase_fst, getNode_mapSet, getNode_pushChild_type, getNode_newNode_self]
  refine SecProp_mono ?_ (mnDsPages_StepOK doc ds _ _)
  have h2 := mnDsProps_SecProp cfg doc ds (mnDsBase dbIdx dbId st ds).2
    (mnDsBase dbIdx dbId st ds).1 hcs hp
    (by rw [mnDsBase_snd, hblen]; omega)
    (by rw [mnDsBase_snd]; exact hbid)
    (by rw [mnDsBase_snd]; exact hbty)
  rw [mnDsBase_snd, hblen] at h2
  exact h2

/-- The database loop body establishes the section record for each of its
data sources with properties (current shape). -/
theorem mnProcessDb_SecProp_ds (cfg : MNConfig) (doc : WorkspaceDocumentation)
    (st : BuildState) (database : DatabaseInfo) (ds : DataSource)
    (hds : ds ∈ database.dataSources)
    (hcs : cfg.requireSchema = true → doc.includeSchema = true)
    (hp : ds.properties.length > 0) :
    ∃ a b, SecProp ds.id "Properties" .dataSource
      (ds.properties.reverse.map (fun p => cfg.fmtProp p doc.databases))
      (mnProcessDb cfg doc st database).1 a b := by
  have h1 : database.dataSources.length > 0 :=
    List.length_pos.mpr (List.ne_nil_of_mem hds)
  rw [mnProcessDb_fst_ds cfg doc st database h1]
  obtain ⟨l1, l2, hsplit⟩ := List.append_of_mem hds
  simp only [mnDbDs]
  rw [hsplit, List.foldl_append, List.foldl_cons]
  refine foldl_pres
    (fun (acc : BuildState × List DataSource) =>
      ∃ a b, SecProp ds.id "Properties" .dataSource
        (ds.properties.reverse.map (fun p => cfg.fmtProp p doc.databases)) acc.1 a b)
    _ ?_ _ _ ?_
  · intro acc x hacc
    obtain ⟨a, b, hsec⟩ := hacc
    exact ⟨a, b, SecProp_mono hsec
      (mnProcessDs_StepOK cfg doc (mnDbBase st database).2 database.id acc.1 x)⟩
  · exact ⟨_, _, mnProcessDs_SecProp cfg doc (mnDbBase st database).2 database.id
      _ ds hcs hp⟩

/-- The database loop body establishes the section record for a legacy
database with properties when the schema guard passes. -/
theorem mnProcessDb_SecProp_legacy (cfg : MNConfig) (doc : WorkspaceDocumentation)
    (st : BuildState) (database : DatabaseInfo)
    (h0 : database.dataSources = [])
    (hcs : cfg.requireSchema = true → doc.includeSchema = true)
    (hp : database.properties.length > 0) :
    ∃ a b, SecProp database.id cfg.legacyPropsTitle .database
      (database.properties.reverse.map (fun p => cfg.fmtProp p doc.databases))
      (mnProcessDb cfg doc st database).1 a b := by
  have h1 : ¬database.dataSources.length > 0 := by
    rw [h0]
    simp
  rw [mnProcessDb_fst_legacy cfg doc st database h1 (And.intro hcs hp)]
  have hblen : (mnDbBase st database).1.nodes.length = st.nodes.length + 1 := by
    rw [mnDbBase_fst, length_mapSet, length_pushAll, length_newNode]
  have hbid : (getNode (mnDbBase st database).1 st.nodes.length).id = database.id := by
    rw [mnDbBase_fst, getNode_mapSet, getNode_pushAll, getNode_newNode_self]
  have hbty : (getNode (mnDbBase st database).1 st.nodes.length).type = .database := by
    rw [mnDbBase_fst, getNode_mapSet, getNode_pushAll, getNode_newNode_self]
  refine ⟨(mnDbBase st database).2, (mnDbBase st database).1.nodes.length,
    SecProp_mono ?_ (mnDbItems_StepOK doc database _ _)⟩
  refine mnDbLegacy_SecProp cfg doc database _ _ ?_ ?_ ?_
  · rw [mnDbBase_snd, hblen]
    omega
  · rw [mnDbBase_snd]
    exact hbid
  · rw [mnDbBase_snd]
    exact hbty

end NotionDoc

namespace NotionDoc

theorem mnLinkStep_fst (st : BuildState) (roots : List Nat) (idx : Nat) :
    (mnLinkStep (st, roots) idx).1 =
      if strTruthy (getNode st idx).parentId = false then st
      else
        match mapGet st ((getNode st idx).parentId.getD "") with
        | some pIdx =>
          if idx ∈ (getNode st pIdx).children then st else pushChild st pIdx idx
        | none => st := by
  simp only [mnLinkStep]
  by_cases h : strTruthy (getNode st idx).parentId = false
  · simp [h]
  · simp only [h, if_false]
    cases hm : mapGet st ((getNode st idx).parentId.getD "") with
    | none => simp [hm]
    | some pIdx =>
      by_cases hc : idx ∈ (getNode st pIdx).children <;> simp [hm, hc]

theorem mnLinkStep_fst_allNodes (st : BuildState) (roots : List Nat) (idx : Nat) :
    ((mnLinkStep (st, roots) idx).1).allNodes = st.allNodes := by
  rw [mnLinkStep_fst]
  split
  · rfl
  · split
    · split
      · rfl
      · exact allNodes_pushChild st _ _
    · rfl

/-- A linking step only ever appends a non-property node (the iterated
index comes from `allNodes`) to the children of an existing node. -/
theorem mnLinkStep_StepOK {st0 : BuildState} (st : BuildState) (roots : List Nat)
    (idx : Nat) (h : StepOK st0 st) (ha : ANI st) (hm : idx ∈ st.allNodes) :
    StepOK st0 (mnLinkStep (st, roots) idx).1 := by
  obtain ⟨hlt, hty⟩ := ha idx hm
  rw [mnLinkStep_fst]
  split
  · exact h
  · split
    · split
      · exact h
      · exact StepOK_pushChild_ty h _ hlt hty
    · exact h

theorem ANI_mnLinkStep (st : BuildState) (roots : List Nat) (idx : Nat)
    (ha : ANI st) : ANI (mnLinkStep (st, roots) idx).1 := by
  rw [mnLinkStep_fst]
  split
  · exact ha
  · split
    · split
      · exact ha
      · exact ANI_pushChild ha _ _
    · exact ha

/-- The whole linking loop keeps the created store intact in the sense of
`StepOK`. -/
theorem linkFold_StepOK {st0 : BuildState} :
    ∀ (l : List Nat) (st : BuildState) (roots : List Nat),
      StepOK st0 st → ANI st → (∀ j ∈ l, j ∈ st.allNodes) →
      StepOK st0 (l.foldl mnLinkStep (st, roots)).1 := by
  intro l
  induction l with
  | nil => intro st roots h _ _; exact h
  | cons x t ih =>
    intro st roots h ha hm
    rw [List.foldl_cons]
    have hstep : mnLinkStep (st, roots) x =
        ((mnLinkStep (st, roots) x).1, (mnLinkStep (st, roots) x).2) := rfl
    rw [hstep]
    refine ih _ _ (mnLinkStep_StepOK st roots x h ha (hm x (by simp)))
      (ANI_mnLinkStep st roots x ha) ?_
    intro j hj
    rw [mnLinkStep_fst_allNodes]
    exact hm j (List.mem_cons_of_mem _ hj)

/-- The creation phase establishes the section record for every data
source with properties (current shape), provided the schema guard holds. -/
theorem mnCreate_SecProp_ds (cfg : MNConfig) (doc : WorkspaceDocumentation)
    (db : DatabaseInfo) (ds : DataSource) (hdb : db ∈ doc.databases)
    (hds : ds ∈ db.dataSources)
    (hcs : cfg.requireSchema = true → doc.includeSchema = true)
    (hp : ds.properties.length > 0) :
    ∃ a b, SecProp ds.id "Properties" .dataSource
      (ds.properties.reverse.map (fun p => cfg.fmtProp p doc.databases))
      (mnCreate cfg doc).1 a b := by
  obtain ⟨l1, l2, hsplit⟩ := List.append_of_mem hdb
  simp only [mnCreate]
  rw [hsplit, List.foldl_append, List.foldl_cons, ← hsplit]
  refine foldl_pres
    (fun (acc : BuildState × List DatabaseInfo) =>
      ∃ a b, SecProp ds.id "Properties" .dataSource
        (ds.properties.reverse.map (fun p => cfg.fmtProp p doc.databases)) acc.1 a b)
    _ ?_ _ _ ?_
  · intro acc x hacc
    obtain ⟨a, b, hsec⟩ := hacc
    exact ⟨a, b, SecProp_mono hsec (mnProcessDb_StepOK cfg doc acc.1 x)⟩
  · exact mnProcessDb_SecProp_ds cfg doc _ db ds hds hcs hp

/-- The creation phase establishes the section record for every legacy
database with properties, provided the schema guard holds. -/
theorem mnCreate_SecProp_legacy (cfg : MNConfig) (doc : WorkspaceDocumentation)
    (db : DatabaseInfo) (hdb : db ∈ doc.databases) (h0 : db.dataSources = [])
    (hcs : cfg.requireSchema = true → doc.includeSchema = true)
    (hp : db.properties.length > 0) :
    ∃ a b, SecProp db.id cfg.legacyPropsTitle .database
      (db.properties.reverse.map (fun p => cfg.fmtProp p doc.databases))
      (mnCreate cfg doc).1 a b := by
  obtain ⟨l1, l2, hsplit⟩ := List.append_of_mem hdb
  simp only [mnCreate]
  rw [hsplit, List.foldl_append, List.foldl_cons, ← hsplit]
  refine foldl_pres
    (fun (acc : BuildState × List DatabaseInfo) =>
      ∃ a b, SecProp db.id cfg.legacyPropsTitle .database
        (db.properties.reverse.map (fun p => cfg.fmtProp p doc.databases)) acc.1 a b)
    _ ?_ _ _ ?_
  · intro acc x hacc
    obtain ⟨a, b, hsec⟩ := hacc
    exact ⟨a, b, SecProp_mono hsec (mnProcessDb_StepOK cfg doc acc.1 x)⟩
  · exact mnProcessDb_SecProp_legacy cfg doc _ db h0 hcs hp

/-- A section record established by the creation phase survives the
linking loop. -/
theorem mnBuild_SecProp (cfg : MNConfig) (doc : WorkspaceDocumentation)
    {dsId secTitle : String} {pty : NodeType} {L : List String}
    (h : ∃ a b, SecProp dsId secTitle pty L (mnCreate cfg doc).1 a b) :
    ∃ a b, SecProp dsId secTitle pty L (mnBuild cfg doc).state a b := by
  obtain ⟨a, b, hs⟩ := h
  refine ⟨a, b, SecProp_mono hs ?_⟩
  show StepOK (mnCreate cfg doc).1
    (((mnCreate cfg doc).1.allNodes.foldl mnLinkStep ((mnCreate cfg doc).1, [])).1)
  exact linkFold_StepOK _ _ _ (StepOK_refl _) (mnCreate_ANI cfg doc) (fun j hj => hj)

end NotionDoc

namespace NotionDoc

/-- C4, corrected.  In the Markdown and Numbered builders, every data
source with a non-empty property list (schema guard permitting) gets a
properties-section child node below its data-source node whose property
children carry the formatted property titles in reverse insertion order
(last-defined property first), and likewise every legacy database with a
non-empty property list; the section is titled "Properties" for data
sources and with the builder's legacy title for legacy databases.  The
original claim also covered the Tree builder, which creates no properties
section for data sources: it attaches property nodes directly below the
data-source node (see the counterexample). -/
theorem mn_properties_section_reverse_insertion (cfg : MNConfig)
    (doc : WorkspaceDocumentation) :
    (∀ db ∈ doc.databases, ∀ ds ∈ db.dataSources,
      (cfg.requireSchema = true → doc.includeSchema = true) →
      ds.properties.length > 0 →
      ∃ dsIdx secIdx,
        (getNode (mnBuild cfg doc).state dsIdx).id = ds.id
        ∧ (getNode (mnBuild cfg doc).state dsIdx).type = .dataSource
        ∧ secIdx ∈ (getNode (mnBuild cfg doc).state dsIdx).children
        ∧ (getNode (mnBuild cfg doc).state secIdx).type = .propertiesSection
        ∧ (getNode (mnBuild cfg doc).state secIdx).title = "Properties"
        ∧ ((getNode (mnBuild cfg doc).state secIdx).children.filter
            (fun c => decide ((getNode (mnBuild cfg doc).state c).type
              = NodeType.property))).map
            (fun c => (getNode (mnBuild cfg doc).state c).title)
          = ds.properties.reverse.map (fun p => cfg.fmtProp p doc.databases))
    ∧ (∀ db ∈ doc.databases, db.dataSources = [] →
      (cfg.requireSchema = true → doc.includeSchema = true) →
      db.properties.length > 0 →
      ∃ dbIdx secIdx,
        (getNode (mnBuild cfg doc).state dbIdx).id = db.id
        ∧ (getNode (mnBuild cfg doc).state dbIdx).type = .database
        ∧ secIdx ∈ (getNode (mnBuild cfg doc).state dbIdx).children
        ∧ (getNode (mnBuild cfg doc).state secIdx).type = .propertiesSection
        ∧ (getNode (mnBuild cfg doc).state secIdx).title = cfg.legacyPropsTitle
        ∧ ((getNode (mnBuild cfg doc).state secIdx).children.filter
            (fun c => decide ((getNode (mnBuild cfg doc).state c).type
              = NodeType.property))).map
            (fun c => (getNode (mnBuild cfg doc).state c).title)
          = db.properties.reverse.map (fun p => cfg.fmtProp p doc.databases)) := by
  constructor
  · intro db hdb ds hds hcs hp
    obtain ⟨a, b, q1, q2, q3, q4, q5, q6, q7, q8, q9⟩ :=
      mnBuild_SecProp cfg doc (mnCreate_SecProp_ds cfg doc db ds hdb hds hcs hp)
    exact ⟨a, b, q3, q4, q7, q5, q6, q9⟩
  · intro db hdb h0 hcs hp
    obtain ⟨a, b, q1, q2, q3, q4, q5, q6, q7, q8, q9⟩ :=
      mnBuild_SecProp cfg doc (mnCreate_SecProp_legacy cfg doc db hdb h0 hcs hp)
    exact ⟨a, b, q3, q4, q7, q5, q6, q9⟩

theorem mn_properties_section_reverse_insertion_witness :
    (∃ dsIdx secIdx,
      (getNode (mnBuild markdownConfig docDs).state dsIdx).id = cDs.id
      ∧ (getNode (mnBuild markdownConfig docDs).state dsIdx).type = .dataSource
      ∧ secIdx ∈ (getNode (mnBuild markdownConfig docDs).state dsIdx).children
      ∧ (getNode (mnBuild markdownConfig docDs).state secIdx).type = .propertiesSection
      ∧ (getNode (mnBuild markdownConfig docDs).state secIdx).title = "Properties"
      ∧ ((getNode (mnBuild markdownConfig docDs).state secIdx).children.filter
          (fun c => decide ((getNode (mnBuild markdownConfig docDs).state c).type
            = NodeType.property))).map
          (fun c => (getNode (mnBuild markdownConfig docDs).state c).title)
        = cDs.properties.reverse.map
            (fun p => markdownConfig.fmtProp p docDs.databases))
    ∧ (∃ dbIdx secIdx,
      (getNode (mnBuild numberedConfig docLegacySchemaFalse).state dbIdx).id
        = cDbLegacyProps.id
      ∧ (getNode (mnBuild numberedConfig docLegacySchemaFalse).state dbIdx).type
        = .database
      ∧ secIdx ∈ (getNode (mnBuild numberedConfig docLegacySchemaFalse).state dbIdx).children
      ∧ (getNode (mnBuild numberedConfig docLegacySchemaFalse).state secIdx).type
        = .propertiesSection
      ∧ (getNode (mnBuild numberedConfig docLegacySchemaFalse).state secIdx).title
        = numberedConfig.legacyPropsTitle
      ∧ ((getNode (mnBuild numberedConfig docLegacySchemaFalse).state secIdx).children.filter
          (fun c => decide ((getNode (mnBuild numberedConfig docLegacySchemaFalse).state c).type
            = NodeType.property))).map
          (fun c => (getNode (mnBuild numberedConfig docLegacySchemaFalse).state c).title)
        = cDbLegacyProps.properties.reverse.map
            (fun p => numberedConfig.fmtProp p docLegacySchemaFalse.databases)) :=
  ⟨(mn_properties_section_reverse_insertion markdownConfig docDs).1 cDbCurrent
      (by decide) cDs (by decide) (by decide) (by decide),
   (mn_properties_section_reverse_insertion numberedConfig docLegacySchemaFalse).2
      cDbLegacyProps (by decide) rfl (by decide) (by decide)⟩

/-- C4 counterexample: on the current-shape aggregate `docDs` (schema
requested, one data source with two properties) the Tree builder creates
no properties-section node at all; the two property nodes hang directly
below the data-source node. -/
theorem tree_attaches_properties_without_section :
    docDs.includeSchema = true
    ∧ docDs.databases = [cDbCurrent]
    ∧ cDbCurrent.dataSources = [cDs]
    ∧ cDs.properties.length > 0
    ∧ ((treeBuild docDs).state.nodes.map (fun n => n.type)).count .propertiesSection = 0
    ∧ (getNode (treeBuild docDs).state 1).id = cDs.id
    ∧ (getNode (treeBuild docDs).state 1).children.map
        (fun c => (getNode (treeBuild docDs).state c).type)
      = [.property, .property] := by
  decide

end NotionDoc
